import Mathlib

/-!
# fetchWithRetry: a bounded retry loop

A shallow embedding of `src/task_2_async_fetcher/fetchWithRetry.js` and of
`src/task_2_async_fetcher/mockApi.js`. The retry loop is embedded twice: for
the operation interface of the specification (namespace `FetchWithRetry`), and
for rejections and numbers of any kind (namespace `FetchWithRetry.AnyRejection`);
`anyRejection_whileLoop_lift` shows that the two agree on the interface.

* The operation `apiFn` is a zero-argument callable owning its own state; it is
  embedded by explicit state passing: one invocation maps the operation's state
  to the outcome of the returned promise (resolved with a value, or rejected
  with an error carrying a `message`) and the next state.
* A rejection is embedded by the kind of the error and the text its `message`
  contributes to a template literal. The operation interface gives every
  failure reason a message; a rejection with `null` or `undefined`, on which
  reading `err.message` itself throws, is not an operation of that interface:
  it is embedded in `AnyRejection`.
* On the interface `maxRetries` and `delayMs` are integers, of either sign,
  printed in decimal digits, which is what a template literal does for integers
  of magnitude below `10 ^ 21`; in `AnyRejection` the budget is any number and
  the conversion to text is a parameter.
* `console.log`, `console.warn`, the invocations of `apiFn` and the awaited
  `sleep(ms)` are recorded, in program order, in a trace of events.
* `while (true)` is embedded with a fuel argument: `none` means the fuel ran
  out before the loop left through `return` or `throw`.
-/

namespace FetchWithRetry

/-- A JavaScript error value, as far as the loop looks at it: `message` is the
text of `err.message` in a template literal; the `name` stands for the kind of
error (`Error`, `TypeError`, ...), which the loop never reads. -/
structure JsError where
  name : String
  message : String
deriving DecidableEq, Repr

deriving instance DecidableEq for Except

/-- Settled outcome of one awaited call `apiFn()`. -/
abbrev Outcome (α : Type) := Except JsError α

/-- The callable `apiFn`, with the state it owns made explicit. -/
abbrev Operation (σ α : Type) := σ → Outcome α × σ

/-- What a run does that can be observed from outside, in program order. -/
inductive Event where
  | call : Event
  | log (line : String) : Event
  | warn (line : String) : Event
  | sleep (ms : Int) : Event
deriving DecidableEq, Repr

/-- The parameter `options`: a field that is `undefined` or `null` is `none`. -/
structure Options where
  maxRetries : Option Int := none
  delayMs : Option Int := none
deriving DecidableEq, Repr

/-- A finished call of `fetchWithRetry`: the returned value or the thrown
error, the state the operation is left in, and the trace. -/
structure Run (σ α : Type) where
  result : Outcome α
  state : σ
  trace : List Event

/-- The text of the template literal for a successful attempt (the counter is
printed in decimal digits). -/
def successLine (attempt : Nat) : String :=
  "Attempt " ++ toString attempt ++ ": success"

/-- The text of the template literal for a failed attempt. -/
def failureLine (attempt : Nat) (err : JsError) : String :=
  "Attempt " ++ toString attempt ++ " failed: " ++ err.message

/-- The text of the template literal announcing a wait, for an integer delay
printed in decimal digits (magnitude below `10 ^ 21`). -/
def waitingLine (delayMs : Int) : String :=
  "Waiting " ++ toString delayMs ++ "ms before retrying..."

/-- The error thrown when the retries are used up:
`new Error("All <maxRetries> retries failed. Last error: <err.message>")`, for
an integer budget printed in decimal digits (magnitude below `10 ^ 21`). -/
def exhaustedError (maxRetries : Int) (err : JsError) : JsError :=
  { name := "Error"
    message := "All " ++ toString maxRetries ++ " retries failed. Last error: " ++ err.message }

/-- The `while (true)` loop of `fetchWithRetry`. `attempt` is the value of the
counter on entry to the loop body, `s` the state of the operation and `tr` the
trace so far. -/
def whileLoop {σ α : Type} (apiFn : Operation σ α) (maxRetries delayMs : Int) :
    Nat → Nat → σ → List Event → Option (Run σ α)
  | 0, _, _, _ => none
  | fuel + 1, attempt, s, tr =>
    let attempt := attempt + 1
    match apiFn s with
    | (.ok result, s') =>
      some { result := .ok result, state := s',
             trace := tr ++ [Event.call, Event.log (successLine attempt)] }
    | (.error err, s') =>
      let tr := tr ++ [Event.call, Event.warn (failureLine attempt err)]
      if (attempt : Int) > maxRetries then
        some { result := .error (exhaustedError maxRetries err), state := s', trace := tr }
      else
        whileLoop apiFn maxRetries delayMs fuel attempt s'
          (tr ++ [Event.log (waitingLine delayMs), Event.sleep delayMs])

/-- The function `fetchWithRetry(apiFn, options = {})`; `options = none` is the
omitted argument. -/
def fetchWithRetry {σ α : Type} (fuel : Nat) (apiFn : Operation σ α)
    (options : Option Options) (s : σ) : Option (Run σ α) :=
  let options := options.getD {}
  let maxRetries := options.maxRetries.getD 3
  let delayMs := options.delayMs.getD 1000
  whileLoop apiFn maxRetries delayMs fuel 0 s []

/-! ### Vocabulary for the statements -/

/-- Number of invocations of the operation recorded in a trace. -/
def invocations (tr : List Event) : Nat :=
  tr.count Event.call

/-- The durations of the awaited delays recorded in a trace, in order. -/
def sleeps : List Event → List Int
  | [] => []
  | Event.sleep ms :: tr => ms :: sleeps tr
  | _ :: tr => sleeps tr

/-- Number of awaited delays recorded in a trace. -/
def waits (tr : List Event) : Nat :=
  (sleeps tr).length

/-- State of the operation after `n` invocations starting from `s`. -/
def stateAfter {σ α : Type} (apiFn : Operation σ α) (s : σ) : Nat → σ
  | 0 => s
  | n + 1 => stateAfter apiFn (apiFn s).2 n

/-- Outcome of attempt `k` (attempts are numbered from 1) when the operation
is invoked repeatedly starting from state `s`. -/
def outcomeOfAttempt {σ α : Type} (apiFn : Operation σ α) (s : σ) (k : Nat) : Outcome α :=
  (apiFn (stateAfter apiFn s (k - 1))).1

/-- Whether an outcome is a rejection. -/
def isFailure {α : Type} : Outcome α → Bool
  | .ok _ => false
  | .error _ => true

/-- How `fetchWithRetry` settles, given the outcome of the last attempt it
makes: the value is returned as it is, a rejection is replaced by the error
thrown on exhaustion. -/
def settle {α : Type} (maxRetries : Int) : Outcome α → Outcome α
  | .ok v => .ok v
  | .error err => .error (exhaustedError maxRetries err)

/-- The invocations and the awaited delays of a trace, in order (the console
lines are dropped). -/
def skeleton : List Event → List Event
  | [] => []
  | Event.call :: tr => Event.call :: skeleton tr
  | Event.sleep ms :: tr => Event.sleep ms :: skeleton tr
  | _ :: tr => skeleton tr

/-- The sequence invocation, wait of `d`, invocation, ..., invocation with
`n` waits and `n + 1` invocations. -/
def alternation (d : Int) : Nat → List Event
  | 0 => [Event.call]
  | n + 1 => Event.call :: Event.sleep d :: alternation d n

/-- The least time an event takes on the logical clock: an awaited
`sleep(ms)` takes at least `ms`, and no event takes a negative time. -/
def minDuration : Event → Int
  | Event.sleep ms => max ms 0
  | _ => 0

/-- A timing gives each event of a trace, in order, the time it takes. -/
def Timed : List Event → List Int → Prop
  | [], [] => True
  | e :: tr, t :: ts => minDuration e ≤ t ∧ Timed tr ts
  | _, _ => False

/-- The times at which the invocations of a trace start, on a clock that
shows `now` at the start of the trace and advances by the given timing. -/
def callStarts : List Event → List Int → Int → List Int
  | Event.call :: tr, t :: ts, now => now :: callStarts tr ts (now + t)
  | _ :: tr, t :: ts, now => callStarts tr ts (now + t)
  | _, _, _ => []

/-- Two outcomes that differ at most in the error of a rejection. -/
def sameShape {α : Type} : Outcome α → Outcome α → Prop
  | .ok v, .ok w => v = w
  | .error _, .error _ => True
  | _, _ => False

/-- The console line that reports an attempt: `console.log` of the success
line or `console.warn` of the failure line, with the number of the attempt. -/
def progressLine {α : Type} (attempt : Nat) : Outcome α → Event
  | .ok _ => Event.log (successLine attempt)
  | .error err => Event.warn (failureLine attempt err)

/-- The trace of a run that enters the loop with the counter at `attempt` and
the operation in state `s`, and makes `n` retries: `n` times an invocation, its
report, the line announcing the wait and the wait, and then the last
invocation and its report. -/
def expectedTrace {σ α : Type} (apiFn : Operation σ α) (delayMs : Int) :
    Nat → σ → Nat → List Event
  | attempt, s, 0 => [Event.call, progressLine (attempt + 1) (apiFn s).1]
  | attempt, s, n + 1 =>
    Event.call :: progressLine (attempt + 1) (apiFn s).1 ::
      Event.log (waitingLine delayMs) :: Event.sleep delayMs ::
      expectedTrace apiFn delayMs (attempt + 1) (apiFn s).2 n

/-- The events that directly follow the invocations of a trace, in order. -/
def attemptReports : List Event → List Event
  | [] => []
  | Event.call :: tr => tr.head?.toList ++ attemptReports tr
  | _ :: tr => attemptReports tr

/-! ### The mock operation of `src/task_2_async_fetcher/mockApi.js` -/

/-- A JavaScript number: a finite double, held as the rational number it
denotes, an infinity, or `NaN`. -/
inductive JsNumber where
  | nan : JsNumber
  | negInf : JsNumber
  | finite (q : ℚ) : JsNumber
  | posInf : JsNumber

/-- The comparison `x < y` of JavaScript numbers: exact on finite numbers,
false as soon as an operand is `NaN`. -/
def JsNumber.lt : JsNumber → JsNumber → Bool
  | .finite a, .finite b => decide (a < b)
  | .finite _, .posInf => true
  | .negInf, .finite _ => true
  | .negInf, .posInf => true
  | _, _ => false

/-- The comparison `x <= y` of JavaScript numbers. -/
def JsNumber.le : JsNumber → JsNumber → Bool
  | .finite a, .finite b => decide (a ≤ b)
  | .finite _, .posInf => true
  | .negInf, .finite _ => true
  | .negInf, .posInf => true
  | .negInf, .negInf => true
  | .posInf, .posInf => true
  | _, _ => false

/-- The double that the literal `0.3` denotes, `5404319552844595 / 2 ^ 54`. -/
def successRateDefault : JsNumber :=
  .finite (5404319552844595 / 18014398509481984)

/-- The object `{ message: "mock success", ts: Date.now() }`. -/
structure MockData where
  message : String
  ts : Int
deriving DecidableEq, Repr

/-- The object `{ ok: true, data: { ... } }` the mock resolves with. -/
structure MockResponse where
  ok : Bool
  data : MockData
deriving DecidableEq, Repr

/-- The function `mockApiCall(successRate = 0.3)`, as the outcome its promise
settles with: `successRate = none` is the omitted argument, `random` the value
`Math.random()` returns and `now` the value `Date.now()` returns. The latency
of 200 ms before the promise settles is not part of the outcome. -/
def mockApiCall (successRate : Option JsNumber) (random : ℚ) (now : Int) :
    Outcome MockResponse :=
  let successRate := successRate.getD successRateDefault
  if JsNumber.lt (.finite random) successRate then
    .ok { ok := true, data := { message := "mock success", ts := now } }
  else
    .error { name := "Error", message := "mock failure" }

/-! ### Rejections and numbers of any kind

The embedding above is for the operation interface of the specification: every
rejection carries a message, and the options are integers, which a template
literal prints in decimal digits as long as their magnitude is below `10 ^ 21`.
The embedding below drops both restrictions. A promise may be rejected with
`null` or `undefined`, on which the read of `err.message` in the `catch` block
throws; `maxRetries` is any JavaScript number; and the conversion of a number
to text, which the runtime supplies, is a parameter `render`. -/

/-- A value a promise is rejected with, as far as the `catch` block looks at
it: `null`, `undefined`, or a value on which `.message` can be read. -/
inductive Reason where
  | null : Reason
  | undefined : Reason
  | error (err : JsError) : Reason
deriving DecidableEq, Repr

/-- The evaluation of `err.message`: the text of the message, or the
`TypeError` thrown by the property read on `null` or `undefined` (with the
wording of V8). -/
def readMessage : Reason → Except JsError String
  | .error err => .ok err.message
  | .null =>
    .error ⟨"TypeError", "Cannot read properties of null (reading \x27message\x27)"⟩
  | .undefined =>
    .error ⟨"TypeError", "Cannot read properties of undefined (reading \x27message\x27)"⟩

namespace AnyRejection

/-- The callable `apiFn`, rejecting with any reason. -/
abbrev Operation (σ α : Type) := σ → Except Reason α × σ

/-- The parameter `options`, `maxRetries` being any number. -/
structure Options where
  maxRetries : Option JsNumber := none
  delayMs : Option Int := none

/-- The `while (true)` loop of `fetchWithRetry`, for rejections and budgets of
any kind. A `TypeError` thrown by the read of `err.message` leaves the `catch`
block, and with it the function, before `console.warn` is called. -/
def whileLoop {σ α : Type} (render : JsNumber → String) (apiFn : Operation σ α)
    (maxRetries : JsNumber) (delayMs : Int) :
    Nat → Nat → σ → List Event → Option (Run σ α)
  | 0, _, _, _ => none
  | fuel + 1, attempt, s, tr =>
    let attempt := attempt + 1
    match apiFn s with
    | (.ok result, s') =>
      some { result := .ok result, state := s',
             trace := tr ++ [Event.call,
               Event.log ("Attempt " ++ render (.finite attempt) ++ ": success")] }
    | (.error err, s') =>
      match readMessage err with
      | .error thrown =>
        some { result := .error thrown, state := s', trace := tr ++ [Event.call] }
      | .ok message =>
        let tr := tr ++ [Event.call,
          Event.warn ("Attempt " ++ render (.finite attempt) ++ " failed: " ++ message)]
        if JsNumber.lt maxRetries (.finite attempt) then
          some { result := .error
                   { name := "Error"
                     message := "All " ++ render maxRetries ++
                       " retries failed. Last error: " ++ message },
                 state := s', trace := tr }
        else
          whileLoop render apiFn maxRetries delayMs fuel attempt s'
            (tr ++ [Event.log ("Waiting " ++ render (.finite delayMs) ++ "ms before retrying..."),
              Event.sleep delayMs])

/-- The function `fetchWithRetry(apiFn, options = {})`, for rejections and
budgets of any kind. -/
def fetchWithRetry {σ α : Type} (render : JsNumber → String) (fuel : Nat)
    (apiFn : Operation σ α) (options : Option Options) (s : σ) : Option (Run σ α) :=
  let options := options.getD {}
  let maxRetries := options.maxRetries.getD (.finite 3)
  let delayMs := options.delayMs.getD 1000
  whileLoop render apiFn maxRetries delayMs fuel 0 s []

/-- An operation of the interface, seen as an operation rejecting with any
reason. -/
def lift {σ α : Type} (apiFn : FetchWithRetry.Operation σ α) : Operation σ α := fun s =>
  match apiFn s with
  | (.ok v, s') => (.ok v, s')
  | (.error err, s') => (.error (.error err), s')

/-- The operation `() => Promise.reject(null)`. -/
def rejectsNull : Operation Unit Nat := fun s =>
  (.error .null, s)

/-- An operation that rejects on every invocation, the first time with
`undefined` and afterwards like `alwaysFails`. -/
def undefinedThenFails : Operation Nat Nat := fun c =>
  if c = 0 then (.error .undefined, 1)
  else (.error (.error ⟨"Error", "mock failure " ++ toString (c + 1)⟩), c + 1)

/-- A conversion of numbers to text that prints an integer in decimal digits,
as the runtime does for integers of magnitude below `10 ^ 21`; it stands for
the runtime at small integers only. -/
def decimal : JsNumber → String
  | .finite q => if q.den = 1 then toString q.num else "?"
  | .nan => "NaN"
  | .posInf => "Infinity"
  | .negInf => "-Infinity"

end AnyRejection

/-! ### Sample operations -/

/-- An operation that rejects on its first `n` invocations and resolves with
its invocation number afterwards; its state counts the invocations made. -/
def failsFirst (n : Nat) : Operation Nat Nat := fun c =>
  if c < n then (.error ⟨"Error", "down " ++ toString (c + 1)⟩, c + 1)
  else (.ok (c + 1), c + 1)

/-- An operation that rejects on every invocation. -/
def alwaysFails : Operation Nat Nat := fun c =>
  (.error ⟨"Error", "mock failure " ++ toString (c + 1)⟩, c + 1)

/-- An operation that resolves on every invocation. -/
def alwaysSucceeds : Operation Nat String := fun c =>
  (.ok "mock success", c + 1)

/-- The run of `failsFirst 2` with `maxRetries = 5` and `delayMs = 100`. -/
def sampleRun : Run Nat Nat :=
  { result := .ok 3
    state := 3
    trace :=
      [Event.call, Event.warn "Attempt 1 failed: down 1",
       Event.log "Waiting 100ms before retrying...", Event.sleep 100,
       Event.call, Event.warn "Attempt 2 failed: down 2",
       Event.log "Waiting 100ms before retrying...", Event.sleep 100,
       Event.call, Event.log "Attempt 3: success"] }

/-- An operation that rejects on every invocation, the first two times with
an error of another kind and another message than `alwaysFails`. -/
def timesOutThenFails : Operation Nat Nat := fun c =>
  if c < 2 then (.error ⟨"TypeError", "timed out"⟩, c + 1)
  else (.error ⟨"Error", "mock failure " ++ toString (c + 1)⟩, c + 1)

/-! ### The loop, one iteration at a time -/

theorem whileLoop_ok {σ α : Type} (apiFn : Operation σ α) (M d : Int) (fuel a : Nat) (s s' : σ)
    (tr : List Event) (v : α) (h : apiFn s = (.ok v, s')) :
    whileLoop apiFn M d (fuel + 1) a s tr =
      some { result := .ok v, state := s',
             trace := tr ++ [Event.call, Event.log (successLine (a + 1))] } := by
  simp only [whileLoop, h]

theorem whileLoop_exhausted {σ α : Type} (apiFn : Operation σ α) (M d : Int) (fuel a : Nat)
    (s s' : σ) (tr : List Event) (err : JsError) (h : apiFn s = (.error err, s'))
    (hM : ((a + 1 : Nat) : Int) > M) :
    whileLoop apiFn M d (fuel + 1) a s tr =
      some { result := .error (exhaustedError M err), state := s',
             trace := tr ++ [Event.call, Event.warn (failureLine (a + 1) err)] } := by
  simp only [whileLoop, h, if_pos hM]

theorem whileLoop_retry {σ α : Type} (apiFn : Operation σ α) (M d : Int) (fuel a : Nat)
    (s s' : σ) (tr : List Event) (err : JsError) (h : apiFn s = (.error err, s'))
    (hM : ¬ ((a + 1 : Nat) : Int) > M) :
    whileLoop apiFn M d (fuel + 1) a s tr =
      whileLoop apiFn M d fuel (a + 1) s'
        (tr ++ [Event.call, Event.warn (failureLine (a + 1) err)] ++
          [Event.log (waitingLine d), Event.sleep d]) := by
  simp only [whileLoop, h, if_neg hM]

/-! ### Counting in traces -/

theorem invocations_append (t u : List Event) :
    invocations (t ++ u) = invocations t + invocations u := by
  simp [invocations]

theorem sleeps_append (t u : List Event) : sleeps (t ++ u) = sleeps t ++ sleeps u := by
  induction t with
  | nil => rfl
  | cons e t ih => cases e <;> simp [sleeps, ih]

theorem skeleton_append (t u : List Event) : skeleton (t ++ u) = skeleton t ++ skeleton u := by
  induction t with
  | nil => rfl
  | cons e t ih => cases e <;> simp [skeleton, ih]

theorem invocations_skeleton (t : List Event) : invocations (skeleton t) = invocations t := by
  induction t with
  | nil => rfl
  | cons e t ih => cases e <;> simp_all [skeleton, invocations]

theorem sleeps_skeleton (t : List Event) : sleeps (skeleton t) = sleeps t := by
  induction t with
  | nil => rfl
  | cons e t ih => cases e <;> simp_all [skeleton, sleeps]

theorem invocations_alternation (d : Int) (n : Nat) :
    invocations (alternation d n) = n + 1 := by
  induction n with
  | zero => rfl
  | succ n ih => simp_all [alternation, invocations]

theorem sleeps_alternation (d : Int) (n : Nat) :
    sleeps (alternation d n) = List.replicate n d := by
  induction n with
  | zero => rfl
  | succ n ih => simp_all [alternation, sleeps, List.replicate_succ]

/-! ### Outcomes of successive attempts -/

theorem outcomeOfAttempt_one {σ α : Type} (apiFn : Operation σ α) (s : σ) :
    outcomeOfAttempt apiFn s 1 = (apiFn s).1 := rfl

theorem outcomeOfAttempt_succ {σ α : Type} (apiFn : Operation σ α) (s : σ) (k : Nat) :
    outcomeOfAttempt apiFn s (k + 2) = outcomeOfAttempt apiFn (apiFn s).2 (k + 1) := rfl

/-! ### Every finished run, described by the number of its retries -/

theorem whileLoop_run {σ α : Type} (apiFn : Operation σ α) (M d : Int) :
    ∀ (fuel a : Nat) (s : σ) (tr : List Event) (r : Run σ α),
      whileLoop apiFn M d fuel a s tr = some r →
      ∃ (n : Nat) (t : List Event),
        r.trace = tr ++ t ∧ skeleton t = alternation d n ∧
        r.state = stateAfter apiFn s (n + 1) ∧
        (∀ i, i < n → isFailure (outcomeOfAttempt apiFn s (i + 1)) = true ∧
          ((a + i + 1 : Nat) : Int) ≤ M) ∧
        r.result = settle M (outcomeOfAttempt apiFn s (n + 1)) ∧
        (isFailure (outcomeOfAttempt apiFn s (n + 1)) = true → ((a + n + 1 : Nat) : Int) > M) := by
  intro fuel
  induction fuel with
  | zero => intro a s tr r h; simp [whileLoop] at h
  | succ fuel ih =>
    intro a s tr r h
    rcases hs : apiFn s with ⟨err | v, s'⟩
    · by_cases hM : ((a + 1 : Nat) : Int) > M
      · rw [whileLoop_exhausted apiFn M d fuel a s s' tr err hs hM] at h
        cases h
        refine ⟨0, _, rfl, rfl, ?_, ?_, ?_, ?_⟩
        · simp [stateAfter, hs]
        · intro i hi; omega
        · simp [outcomeOfAttempt_one, hs, settle]
        · intro _; simpa using hM
      · rw [whileLoop_retry apiFn M d fuel a s s' tr err hs hM] at h
        obtain ⟨n, t, htr, hsk, hst, hfail, hres, hlast⟩ := ih (a + 1) s' _ r h
        have hs2 : (apiFn s).2 = s' := by rw [hs]
        refine ⟨n + 1, [Event.call, Event.warn (failureLine (a + 1) err),
          Event.log (waitingLine d), Event.sleep d] ++ t, ?_, ?_, ?_, ?_, ?_, ?_⟩
        · simp [htr]
        · simp [skeleton, hsk, alternation]
        · simp [stateAfter, hs2, hst]
        · intro i hi
          cases i with
          | zero =>
            refine ⟨by simp [outcomeOfAttempt_one, hs, isFailure], ?_⟩
            push_cast at hM ⊢; omega
          | succ j =>
            have hj := hfail j (by omega)
            rw [outcomeOfAttempt_succ, hs2]
            refine ⟨hj.1, ?_⟩
            have := hj.2; push_cast at this ⊢; omega
        · rw [outcomeOfAttempt_succ, hs2]; exact hres
        · rw [outcomeOfAttempt_succ, hs2]
          intro hf
          have := hlast hf; push_cast at this ⊢; omega
    · rw [whileLoop_ok apiFn M d fuel a s s' tr v hs] at h
      cases h
      refine ⟨0, _, rfl, rfl, ?_, ?_, ?_, ?_⟩
      · simp [stateAfter, hs]
      · intro i hi; omega
      · simp [outcomeOfAttempt_one, hs, settle]
      · simp [outcomeOfAttempt_one, hs, isFailure]

/-- Fuel beyond what a run needs does not change it. -/
theorem whileLoop_fuel_succ {σ α : Type} (apiFn : Operation σ α) (M d : Int) :
    ∀ (fuel a : Nat) (s : σ) (tr : List Event) (r : Run σ α),
      whileLoop apiFn M d fuel a s tr = some r →
      whileLoop apiFn M d (fuel + 1) a s tr = some r := by
  intro fuel
  induction fuel with
  | zero => intro a s tr r h; simp [whileLoop] at h
  | succ fuel ih =>
    intro a s tr r h
    rcases hs : apiFn s with ⟨err | v, s'⟩
    · by_cases hM : ((a + 1 : Nat) : Int) > M
      · rw [whileLoop_exhausted apiFn M d _ a s s' tr err hs hM] at h ⊢
        exact h
      · rw [whileLoop_retry apiFn M d _ a s s' tr err hs hM] at h ⊢
        exact ih _ _ _ _ h
    · rw [whileLoop_ok apiFn M d _ a s s' tr v hs] at h ⊢
      exact h

theorem whileLoop_fuel_le {σ α : Type} (apiFn : Operation σ α) (M d : Int)
    (fuel fuel' a : Nat) (s : σ) (tr : List Event) (r : Run σ α)
    (h : whileLoop apiFn M d fuel a s tr = some r) (hle : fuel ≤ fuel') :
    whileLoop apiFn M d fuel' a s tr = some r := by
  induction hle with
  | refl => exact h
  | step _ ih => exact whileLoop_fuel_succ apiFn M d _ a s tr r ih

/-- The loop leaves through `return` or `throw` within `maxRetries + 1 - attempt`
iterations (one iteration when that is not positive). -/
theorem whileLoop_terminates {σ α : Type} (apiFn : Operation σ α) (M d : Int) :
    ∀ (fuel a : Nat) (s : σ) (tr : List Event),
      M + 1 - (a : Int) ≤ (fuel : Int) → 1 ≤ fuel →
      ∃ r, whileLoop apiFn M d fuel a s tr = some r := by
  intro fuel
  induction fuel with
  | zero => intro a s tr _ h; omega
  | succ fuel ih =>
    intro a s tr hle _
    rcases hs : apiFn s with ⟨err | v, s'⟩
    · by_cases hM : ((a + 1 : Nat) : Int) > M
      · exact ⟨_, whileLoop_exhausted apiFn M d fuel a s s' tr err hs hM⟩
      · rw [whileLoop_retry apiFn M d fuel a s s' tr err hs hM]
        apply ih
        · push_cast at hle hM ⊢; omega
        · push_cast at hle hM; omega
    · exact ⟨_, whileLoop_ok apiFn M d fuel a s s' tr v hs⟩

/-! ### Runs of `fetchWithRetry` with a non-negative retry budget -/

theorem fetchWithRetry_eq {σ α : Type} (fuel : Nat) (apiFn : Operation σ α) (M d : Int) (s : σ) :
    fetchWithRetry fuel apiFn (some ⟨some M, some d⟩) s = whileLoop apiFn M d fuel 0 s [] := rfl

/-- With a budget of `m` retries the call finishes within `m + 1` iterations;
the finished run makes `n` retries for some `n ≤ m`. -/
theorem fetchWithRetry_total {σ α : Type} (apiFn : Operation σ α) (m : Nat) (d : Int) (s : σ) :
    ∃ (r : Run σ α) (n : Nat),
      (∀ fuel, m + 1 ≤ fuel → fetchWithRetry fuel apiFn (some ⟨some (m : Int), some d⟩) s = some r) ∧
      skeleton r.trace = alternation d n ∧
      invocations r.trace = n + 1 ∧ sleeps r.trace = List.replicate n d ∧
      r.state = stateAfter apiFn s (n + 1) ∧
      (∀ i, i < n → isFailure (outcomeOfAttempt apiFn s (i + 1)) = true) ∧
      n ≤ m ∧
      r.result = settle (m : Int) (outcomeOfAttempt apiFn s (n + 1)) ∧
      (isFailure (outcomeOfAttempt apiFn s (n + 1)) = true → n = m) := by
  obtain ⟨r, hr⟩ := whileLoop_terminates apiFn (m : Int) d (m + 1) 0 s []
    (by push_cast; omega) (by omega)
  obtain ⟨n, t, htr, hsk, hst, hfail, hres, hlast⟩ := whileLoop_run apiFn (m : Int) d _ _ _ _ _ hr
  have ht : r.trace = t := by simpa using htr
  have hnm : n ≤ m := by
    rcases Nat.eq_zero_or_pos n with h0 | hpos
    · omega
    · have := (hfail (n - 1) (by omega)).2
      push_cast at this; omega
  refine ⟨r, n, ?_, ?_, ?_, ?_, hst, fun i hi => (hfail i hi).1, hnm, hres, ?_⟩
  · intro fuel hfuel
    rw [fetchWithRetry_eq]
    exact whileLoop_fuel_le apiFn (m : Int) d _ _ _ _ _ _ hr hfuel
  · rw [ht, hsk]
  · rw [ht, ← invocations_skeleton, hsk, invocations_alternation]
  · rw [ht, ← sleeps_skeleton, hsk, sleeps_alternation]
  · intro hf
    have := hlast hf
    push_cast at this; omega

theorem alternation_le (d : Int) : ∀ (k n : Nat), k ≤ n →
    alternation d k <+: alternation d n := by
  intro k
  induction k with
  | zero =>
    intro n _
    cases n with
    | zero => exact ⟨[], rfl⟩
    | succ n => exact ⟨Event.sleep d :: alternation d n, rfl⟩
  | succ k ih =>
    intro n hn
    cases n with
    | zero => omega
    | succ n =>
      obtain ⟨t, ht⟩ := ih n (by omega)
      exact ⟨t, by simp [alternation, ← ht]⟩

/-! ### The logical clock -/

theorem minDuration_nonneg (e : Event) : 0 ≤ minDuration e := by
  cases e <;> simp [minDuration]

/-- The clock never runs backwards. -/
theorem callStarts_ge : ∀ (tr : List Event) (ts : List Int) (now : Int), Timed tr ts →
    ∀ x ∈ callStarts tr ts now, now ≤ x := by
  intro tr
  induction tr with
  | nil => intro ts now _ x hx; cases ts <;> simp [callStarts] at hx
  | cons e tr ih =>
    intro ts now hT x hx
    cases ts with
    | nil => cases e <;> simp [Timed] at hT
    | cons t ts =>
      obtain ⟨ht, hT'⟩ : minDuration e ≤ t ∧ Timed tr ts := by
        cases e <;> simpa [Timed] using hT
      have ht0 : 0 ≤ t := le_trans (minDuration_nonneg e) ht
      cases e with
      | call =>
        simp only [callStarts, List.mem_cons] at hx
        rcases hx with rfl | hx
        · exact le_refl _
        · have := ih ts (now + t) hT' x hx; omega
      | sleep ms => have := ih ts (now + t) hT' x (by simpa [callStarts] using hx); omega
      | log line => have := ih ts (now + t) hT' x (by simpa [callStarts] using hx); omega
      | warn line => have := ih ts (now + t) hT' x (by simpa [callStarts] using hx); omega

/-- On every timing of a trace whose invocations and waits alternate with
waits of `d`, consecutive invocations start at least `d` apart. The three parts
describe a trace that is about to invoke, about to wait, or finished. -/
theorem callStarts_spaced (d : Int) :
    ∀ (tr : List Event) (ts : List Int) (now : Int), Timed tr ts →
      (∀ n, skeleton tr = alternation d n →
        List.Chain' (fun a b => a + d ≤ b) (callStarts tr ts now) ∧
        (∀ x ∈ callStarts tr ts now, now ≤ x) ∧ (callStarts tr ts now).length = n + 1) ∧
      (∀ n, skeleton tr = Event.sleep d :: alternation d n →
        List.Chain' (fun a b => a + d ≤ b) (callStarts tr ts now) ∧
        (∀ x ∈ callStarts tr ts now, now + d ≤ x) ∧ (callStarts tr ts now).length = n + 1) ∧
      (skeleton tr = [] → callStarts tr ts now = []) := by
  intro tr
  induction tr with
  | nil =>
    intro ts now _
    refine ⟨?_, ?_, ?_⟩
    · intro n h; cases n <;> simp [skeleton, alternation] at h
    · intro n h; simp [skeleton] at h
    · intro _; cases ts <;> rfl
  | cons e tr ih =>
    intro ts now hT
    cases ts with
    | nil => cases e <;> simp [Timed] at hT
    | cons t ts =>
      obtain ⟨ht, hT'⟩ : minDuration e ≤ t ∧ Timed tr ts := by
        cases e <;> simpa [Timed] using hT
      obtain ⟨ihA, ihB, ihC⟩ := ih ts (now + t) hT'
      cases e with
      | call =>
        have ht0 : 0 ≤ t := by simpa [minDuration] using ht
        refine ⟨?_, ?_, ?_⟩
        · intro n h
          cases n with
          | zero =>
            have hnil : skeleton tr = [] := by simpa [skeleton, alternation] using h
            simp [callStarts, ihC hnil]
          | succ n =>
            have hsk : skeleton tr = Event.sleep d :: alternation d n := by
              simpa [skeleton, alternation] using h
            obtain ⟨hch, hge, hlen⟩ := ihB n hsk
            refine ⟨?_, ?_, ?_⟩
            · simp only [callStarts]
              rw [List.chain'_cons']
              refine ⟨?_, hch⟩
              intro y hy
              have := hge y (List.mem_of_mem_head? hy)
              omega
            · intro x hx
              simp only [callStarts, List.mem_cons] at hx
              rcases hx with rfl | hx
              · exact le_refl _
              · have := callStarts_ge tr ts (now + t) hT' x hx; omega
            · simp [callStarts, hlen]
        · intro n h; simp [skeleton] at h
        · intro h; simp [skeleton] at h
      | sleep ms =>
        refine ⟨?_, ?_, ?_⟩
        · intro n h; cases n <;> simp [skeleton, alternation] at h
        · intro n h
          have hms : ms = d ∧ skeleton tr = alternation d n := by
            simpa [skeleton] using h
          have htd : d ≤ t := by
            have : max ms 0 ≤ t := by simpa [minDuration] using ht
            have := le_max_left ms 0
            omega
          obtain ⟨hch, hge, hlen⟩ := ihA n hms.2
          refine ⟨by simpa [callStarts] using hch, ?_, by simpa [callStarts] using hlen⟩
          intro x hx
          have := hge x (by simpa [callStarts] using hx)
          omega
        · intro h; simp [skeleton] at h
      | log line =>
        have ht0 : 0 ≤ t := by simpa [minDuration] using ht
        refine ⟨?_, ?_, ?_⟩
        · intro n h
          obtain ⟨hch, hge, hlen⟩ := ihA n (by simpa [skeleton] using h)
          refine ⟨by simpa [callStarts] using hch, ?_, by simpa [callStarts] using hlen⟩
          intro x hx
          have := hge x (by simpa [callStarts] using hx)
          omega
        · intro n h
          obtain ⟨hch, hge, hlen⟩ := ihB n (by simpa [skeleton] using h)
          refine ⟨by simpa [callStarts] using hch, ?_, by simpa [callStarts] using hlen⟩
          intro x hx
          have := hge x (by simpa [callStarts] using hx)
          omega
        · intro h
          simpa [callStarts] using ihC (by simpa [skeleton] using h)
      | warn line =>
        have ht0 : 0 ≤ t := by simpa [minDuration] using ht
        refine ⟨?_, ?_, ?_⟩
        · intro n h
          obtain ⟨hch, hge, hlen⟩ := ihA n (by simpa [skeleton] using h)
          refine ⟨by simpa [callStarts] using hch, ?_, by simpa [callStarts] using hlen⟩
          intro x hx
          have := hge x (by simpa [callStarts] using hx)
          omega
        · intro n h
          obtain ⟨hch, hge, hlen⟩ := ihB n (by simpa [skeleton] using h)
          refine ⟨by simpa [callStarts] using hch, ?_, by simpa [callStarts] using hlen⟩
          intro x hx
          have := hge x (by simpa [callStarts] using hx)
          omega
        · intro h
          simpa [callStarts] using ihC (by simpa [skeleton] using h)

/-! ### The claims -/

/-- C1. If the first success of the operation is on attempt `k`, with
`1 ≤ k ≤ maxRetries + 1`, then `fetchWithRetry` returns the value of attempt
`k`, having invoked the operation exactly `k` times and awaited exactly
`k - 1` delays, each of `delayMs`. -/
theorem first_success_returned {σ α : Type} (apiFn : Operation σ α) (s : σ)
    (maxRetries : Nat) (delayMs : Int) (k : Nat) (v : α)
    (hk : 1 ≤ k) (hle : k ≤ maxRetries + 1)
    (hfail : ∀ i, 1 ≤ i → i < k → isFailure (outcomeOfAttempt apiFn s i) = true)
    (hok : outcomeOfAttempt apiFn s k = .ok v) :
    ∃ r : Run σ α,
      (∀ fuel, maxRetries + 1 ≤ fuel →
        fetchWithRetry fuel apiFn (some ⟨some (maxRetries : Int), some delayMs⟩) s = some r) ∧
      r.result = .ok v ∧ invocations r.trace = k ∧ waits r.trace = k - 1 ∧
      sleeps r.trace = List.replicate (k - 1) delayMs := by
  obtain ⟨r, n, hrun, -, hinv, hsl, -, hfl, hnm, hres, hlast⟩ :=
    fetchWithRetry_total apiFn maxRetries delayMs s
  have hkn : k = n + 1 := by
    have h1 : n < k := by
      by_contra hcon
      have := hfl (k - 1) (by omega)
      rw [show k - 1 + 1 = k by omega, hok] at this
      simp [isFailure] at this
    by_contra hne
    have hf := hfail (n + 1) (by omega) (by omega)
    have := hlast hf
    omega
  subst hkn
  refine ⟨r, hrun, ?_, hinv, ?_, ?_⟩
  · rw [hres, hok]; rfl
  · simp [waits, hsl]
  · simpa using hsl

/-- The scenarios of C1: failures on attempts 1 and 2 and success on attempt 3
with `maxRetries = 5`, `delayMs = 100`; and an operation that always succeeds
with `maxRetries = 3`. -/
theorem first_success_returned_witness :
    (∃ r : Run Nat Nat,
      (∀ fuel, 5 + 1 ≤ fuel →
        fetchWithRetry fuel (failsFirst 2) (some ⟨some ((5 : Nat) : Int), some 100⟩) 0 = some r) ∧
      r.result = .ok 3 ∧ invocations r.trace = 3 ∧ waits r.trace = 3 - 1 ∧
      sleeps r.trace = List.replicate (3 - 1) 100) ∧
    (∃ r : Run Nat String,
      (∀ fuel, 3 + 1 ≤ fuel →
        fetchWithRetry fuel alwaysSucceeds (some ⟨some ((3 : Nat) : Int), some 1000⟩) 0
          = some r) ∧
      r.result = .ok "mock success" ∧ invocations r.trace = 1 ∧ waits r.trace = 1 - 1 ∧
      sleeps r.trace = List.replicate (1 - 1) 1000) :=
  ⟨first_success_returned (failsFirst 2) 0 5 100 3 3 (by decide) (by decide)
      (by intro i h1 h2; interval_cases i <;> decide) (by decide),
    first_success_returned alwaysSucceeds 0 3 1000 1 "mock success" (by decide) (by decide)
      (by intro i h1 h2; omega) rfl⟩

/-- C2. If the operation fails on each of the attempts `1, ..., maxRetries + 1`,
then `fetchWithRetry` invokes it exactly `maxRetries + 1` times, awaits exactly
`maxRetries` delays and throws an error whose message ends with the message of
the failure of attempt `maxRetries + 1`. -/
theorem exhaustion_after_all_attempts_fail {σ α : Type} (apiFn : Operation σ α) (s : σ)
    (maxRetries : Nat) (delayMs : Int)
    (hfail : ∀ i, 1 ≤ i → i ≤ maxRetries + 1 → isFailure (outcomeOfAttempt apiFn s i) = true) :
    ∃ (r : Run σ α) (last : JsError) (pre : String),
      (∀ fuel, maxRetries + 1 ≤ fuel →
        fetchWithRetry fuel apiFn (some ⟨some (maxRetries : Int), some delayMs⟩) s = some r) ∧
      invocations r.trace = maxRetries + 1 ∧ waits r.trace = maxRetries ∧
      outcomeOfAttempt apiFn s (maxRetries + 1) = .error last ∧
      r.result = .error (exhaustedError (maxRetries : Int) last) ∧
      (exhaustedError (maxRetries : Int) last).message = pre ++ last.message := by
  obtain ⟨r, n, hrun, -, hinv, hsl, -, -, hnm, hres, hlast⟩ :=
    fetchWithRetry_total apiFn maxRetries delayMs s
  have hn : n = maxRetries := hlast (hfail (n + 1) (by omega) (by omega))
  subst hn
  have hf := hfail (n + 1) (by omega) (by omega)
  cases hout : outcomeOfAttempt apiFn s (n + 1) with
  | ok v => rw [hout] at hf; simp [isFailure] at hf
  | error last =>
    refine ⟨r, last,
      "All " ++ toString (n : Int) ++ " retries failed. Last error: ", hrun, hinv, ?_, rfl, ?_, rfl⟩
    · simp [waits, hsl]
    · rw [hres, hout]; rfl

/-- The scenario of C2: an operation that always fails, `maxRetries = 2`,
`delayMs = 50`. -/
theorem exhaustion_after_all_attempts_fail_witness :
    (∃ (r : Run Nat Nat) (last : JsError) (pre : String),
      (∀ fuel, 2 + 1 ≤ fuel →
        fetchWithRetry fuel alwaysFails (some ⟨some ((2 : Nat) : Int), some 50⟩) 0 = some r) ∧
      invocations r.trace = 2 + 1 ∧ waits r.trace = 2 ∧
      outcomeOfAttempt alwaysFails 0 (2 + 1) = .error last ∧
      r.result = .error (exhaustedError ((2 : Nat) : Int) last) ∧
      (exhaustedError ((2 : Nat) : Int) last).message = pre ++ last.message) ∧
    (fetchWithRetry 3 alwaysFails (some ⟨some 2, some 50⟩) 0).map
        (fun r => (r.result, invocations r.trace, sleeps r.trace)) =
      some (.error ⟨"Error", "All 2 retries failed. Last error: mock failure 3"⟩, 3, [50, 50]) :=
  ⟨exhaustion_after_all_attempts_fail alwaysFails 0 2 50 (by intro i _ _; rfl), by decide⟩

/-- C3. With `maxRetries = 0` passed explicitly the operation is invoked
exactly once and no delay is awaited: a success is returned, a failure throws
the error of exhaustion. -/
theorem zero_retries_single_attempt {σ α : Type} (apiFn : Operation σ α) (s : σ)
    (delayMs : Option Int) (fuel : Nat) :
    ∃ r : Run σ α,
      fetchWithRetry (fuel + 1) apiFn (some ⟨some 0, delayMs⟩) s = some r ∧
      invocations r.trace = 1 ∧ waits r.trace = 0 ∧
      (∀ v, (apiFn s).1 = .ok v → r.result = .ok v) ∧
      (∀ err, (apiFn s).1 = .error err → r.result = .error (exhaustedError 0 err)) := by
  rcases hs : apiFn s with ⟨err | v, s'⟩
  · refine ⟨_, whileLoop_exhausted apiFn 0 _ fuel 0 s s' [] err hs (by decide), ?_, ?_, ?_, ?_⟩
    · simp [invocations]
    · rfl
    · intro v hv; cases hv
    · intro e he; cases he; rfl
  · refine ⟨_, whileLoop_ok apiFn 0 _ fuel 0 s s' [] v hs, ?_, ?_, ?_, ?_⟩
    · simp [invocations]
    · rfl
    · intro w hw; cases hw; rfl
    · intro e he; cases he

/-- On the operation interface (every rejection carries a message) failures of
single attempts are not raised to the caller. For every budget
`maxRetries ≥ 0` the call finishes, and: if the attempts `1, ..., n` fail with
`n ≤ maxRetries`, the run goes on with a wait and attempt `n + 1`; and if the
call throws, it has made `maxRetries + 1` invocations and the error thrown is a
new `Error` with the message
`All <maxRetries> retries failed. Last error: <message of attempt maxRetries + 1>`. -/
theorem interface_only_exhaustion_propagates {σ α : Type} (apiFn : Operation σ α) (s : σ)
    (maxRetries : Nat) (delayMs : Int) :
    ∃ r : Run σ α,
      (∀ fuel, maxRetries + 1 ≤ fuel →
        fetchWithRetry fuel apiFn (some ⟨some (maxRetries : Int), some delayMs⟩) s = some r) ∧
      (∀ n, 1 ≤ n → n ≤ maxRetries →
        (∀ i, 1 ≤ i → i ≤ n → isFailure (outcomeOfAttempt apiFn s i) = true) →
        alternation delayMs n <+: skeleton r.trace ∧
        n + 1 ≤ invocations r.trace ∧ n ≤ waits r.trace) ∧
      (∀ thrown, r.result = .error thrown →
        invocations r.trace = maxRetries + 1 ∧
        ∃ last, outcomeOfAttempt apiFn s (maxRetries + 1) = .error last ∧
          thrown = exhaustedError (maxRetries : Int) last ∧
          thrown.name = "Error" ∧
          thrown.message =
            "All " ++ toString maxRetries ++ " retries failed. Last error: " ++ last.message) := by
  obtain ⟨r, n, hrun, hsk, hinv, hsl, -, hfl, hnm, hres, hlast⟩ :=
    fetchWithRetry_total apiFn maxRetries delayMs s
  refine ⟨r, hrun, ?_, ?_⟩
  · intro j hj1 hjm hfail
    have hjn : j ≤ n := by
      by_contra hcon
      have := hlast (hfail (n + 1) (by omega) (by omega))
      omega
    refine ⟨?_, by omega, ?_⟩
    · rw [hsk]; exact alternation_le delayMs j n hjn
    · simp [waits, hsl]; exact hjn
  · intro thrown hthrown
    cases hout : outcomeOfAttempt apiFn s (n + 1) with
    | ok v => rw [hres, hout] at hthrown; cases hthrown
    | error last =>
      have hn : n = maxRetries := hlast (by rw [hout]; rfl)
      subst hn
      rw [hres, hout] at hthrown
      refine ⟨hinv, last, hout, ?_⟩
      simp only [settle] at hthrown
      cases hthrown
      exact ⟨rfl, rfl, rfl⟩

/-- C5. The error thrown on exhaustion has the message
`All <maxRetries> retries failed. Last error: <message of the last failure>`,
the number being the retry budget `maxRetries`. -/
theorem exhaustion_message {σ α : Type} (apiFn : Operation σ α) (s : σ)
    (maxRetries : Nat) (delayMs : Int)
    (hfail : ∀ i, 1 ≤ i → i ≤ maxRetries + 1 → isFailure (outcomeOfAttempt apiFn s i) = true) :
    ∃ (r : Run σ α) (last : JsError),
      (∀ fuel, maxRetries + 1 ≤ fuel →
        fetchWithRetry fuel apiFn (some ⟨some (maxRetries : Int), some delayMs⟩) s = some r) ∧
      outcomeOfAttempt apiFn s (maxRetries + 1) = .error last ∧
      r.result = .error ⟨"Error",
        "All " ++ toString maxRetries ++ " retries failed. Last error: " ++ last.message⟩ := by
  obtain ⟨r, n, hrun, -, -, -, -, -, hnm, hres, hlast⟩ :=
    fetchWithRetry_total apiFn maxRetries delayMs s
  have hn : n = maxRetries := hlast (hfail (n + 1) (by omega) (by omega))
  subst hn
  have hf := hfail (n + 1) (by omega) (by omega)
  cases hout : outcomeOfAttempt apiFn s (n + 1) with
  | ok v => rw [hout] at hf; simp [isFailure] at hf
  | error last =>
    refine ⟨r, last, hrun, rfl, ?_⟩
    rw [hres, hout]; rfl

/-- The scenario of C5: an operation that always fails, `maxRetries = 2`; the
message names `2`. -/
theorem exhaustion_message_witness :
    (∃ (r : Run Nat Nat) (last : JsError),
      (∀ fuel, 2 + 1 ≤ fuel →
        fetchWithRetry fuel alwaysFails (some ⟨some ((2 : Nat) : Int), some 50⟩) 0 = some r) ∧
      outcomeOfAttempt alwaysFails 0 (2 + 1) = .error last ∧
      r.result = .error ⟨"Error",
        "All " ++ toString 2 ++ " retries failed. Last error: " ++ last.message⟩) ∧
    (fetchWithRetry 3 alwaysFails (some ⟨some 2, some 50⟩) 0).map (fun r => r.result) =
      some (.error ⟨"Error", "All 2 retries failed. Last error: mock failure 3"⟩) :=
  ⟨exhaustion_message alwaysFails 0 2 50 (by intro i _ _; rfl), by decide⟩

/-- C6. For every budget `maxRetries ≥ 0` and every operation the call
finishes (within `maxRetries + 1` iterations of the loop), and it invokes the
operation at least once and at most `maxRetries + 1` times. -/
theorem terminates_within_budget {σ α : Type} (apiFn : Operation σ α) (s : σ)
    (maxRetries : Nat) (delayMs : Int) :
    ∃ r : Run σ α,
      (∀ fuel, maxRetries + 1 ≤ fuel →
        fetchWithRetry fuel apiFn (some ⟨some (maxRetries : Int), some delayMs⟩) s = some r) ∧
      1 ≤ invocations r.trace ∧ invocations r.trace ≤ maxRetries + 1 := by
  obtain ⟨r, n, hrun, -, hinv, -, -, -, hnm, -, -⟩ :=
    fetchWithRetry_total apiFn maxRetries delayMs s
  exact ⟨r, hrun, by omega, by omega⟩

/-- C7. Defaults, for every operation: an omitted `options`, or an absent
`maxRetries` or `delayMs` in it, behaves as `maxRetries = 3` and
`delayMs = 1000`, and supplied values (0 included) are used as given; this
holds for the operation interface and for rejections and budgets of any kind.
With no options every call finishes, with at most 4 invocations and waits of
1000 between them; and an operation failing on attempts 1 to 4 is invoked 4
times with 3 waits of 1000 and the error thrown names 3 retries. -/
theorem defaults_applied {σ α : Type} (apiFn : Operation σ α) (s : σ) :
    (∀ fuel, fetchWithRetry fuel apiFn none s = whileLoop apiFn 3 1000 fuel 0 s []) ∧
    (∀ fuel, fetchWithRetry fuel apiFn none s =
      fetchWithRetry fuel apiFn (some ⟨some 3, some 1000⟩) s) ∧
    (∀ fuel delayMs, fetchWithRetry fuel apiFn (some ⟨none, delayMs⟩) s =
      fetchWithRetry fuel apiFn (some ⟨some 3, delayMs⟩) s) ∧
    (∀ fuel maxRetries, fetchWithRetry fuel apiFn (some ⟨maxRetries, none⟩) s =
      fetchWithRetry fuel apiFn (some ⟨maxRetries, some 1000⟩) s) ∧
    (∀ fuel (maxRetries delayMs : Int),
      fetchWithRetry fuel apiFn (some ⟨some maxRetries, some delayMs⟩) s =
        whileLoop apiFn maxRetries delayMs fuel 0 s []) ∧
    (∀ (render : JsNumber → String) (fuel : Nat) (op : AnyRejection.Operation σ α),
      AnyRejection.fetchWithRetry render fuel op none s =
        AnyRejection.whileLoop render op (.finite 3) 1000 fuel 0 s [] ∧
      (∀ delayMs, AnyRejection.fetchWithRetry render fuel op (some ⟨none, delayMs⟩) s =
        AnyRejection.fetchWithRetry render fuel op (some ⟨some (.finite 3), delayMs⟩) s) ∧
      (∀ maxRetries, AnyRejection.fetchWithRetry render fuel op (some ⟨maxRetries, none⟩) s =
        AnyRejection.fetchWithRetry render fuel op (some ⟨maxRetries, some 1000⟩) s) ∧
      (∀ (maxRetries : JsNumber) (delayMs : Int),
        AnyRejection.fetchWithRetry render fuel op (some ⟨some maxRetries, some delayMs⟩) s =
          AnyRejection.whileLoop render op maxRetries delayMs fuel 0 s [])) ∧
    (∃ r : Run σ α,
      (∀ fuel, 4 ≤ fuel → fetchWithRetry fuel apiFn none s = some r) ∧
      1 ≤ invocations r.trace ∧ invocations r.trace ≤ 4 ∧
      sleeps r.trace = List.replicate (invocations r.trace - 1) 1000) ∧
    ((∀ i, 1 ≤ i → i ≤ 4 → isFailure (outcomeOfAttempt apiFn s i) = true) →
      ∃ (r : Run σ α) (last : JsError),
        (∀ fuel, 4 ≤ fuel → fetchWithRetry fuel apiFn none s = some r) ∧
        invocations r.trace = 4 ∧ sleeps r.trace = [1000, 1000, 1000] ∧
        outcomeOfAttempt apiFn s 4 = .error last ∧
        r.result = .error ⟨"Error", "All 3 retries failed. Last error: " ++ last.message⟩) := by
  obtain ⟨r, n, hrun, -, hinv, hsl, -, -, hnm, hres, hlast⟩ :=
    fetchWithRetry_total apiFn 3 1000 s
  refine ⟨fun _ => rfl, fun _ => rfl, fun _ _ => rfl, fun _ _ => rfl, fun _ _ _ => rfl,
    fun _ _ _ => ⟨rfl, fun _ => rfl, fun _ => rfl, fun _ _ => rfl⟩, ?_, ?_⟩
  · refine ⟨r, hrun, by omega, by omega, ?_⟩
    rw [hsl, hinv, Nat.add_sub_cancel]
  · intro hfail
    have hn : n = 3 := hlast (hfail (n + 1) (by omega) (by omega))
    subst hn
    have hf := hfail 4 (by omega) (by omega)
    cases hout : outcomeOfAttempt apiFn s 4 with
    | ok v => rw [hout] at hf; simp [isFailure] at hf
    | error last =>
      refine ⟨r, last, hrun, hinv, ?_, rfl, ?_⟩
      · rw [hsl]; rfl
      · rw [hres, hout]; rfl

/-- The scenarios of C7: an operation that always fails, called without
options; and an operation that fails once, called with `maxRetries: null` and
`delayMs: undefined`, which succeeds on attempt 2 after one wait of 1000. -/
theorem defaults_applied_witness :
    (∃ (r : Run Nat Nat) (last : JsError),
      (∀ fuel, 4 ≤ fuel → fetchWithRetry fuel alwaysFails none 0 = some r) ∧
      invocations r.trace = 4 ∧ sleeps r.trace = [1000, 1000, 1000] ∧
      outcomeOfAttempt alwaysFails 0 4 = .error last ∧
      r.result = .error ⟨"Error", "All 3 retries failed. Last error: " ++ last.message⟩) ∧
    (fetchWithRetry 10 alwaysFails none 0).map
        (fun r => (r.result, invocations r.trace, sleeps r.trace)) =
      some (.error ⟨"Error", "All 3 retries failed. Last error: mock failure 4"⟩, 4,
        [1000, 1000, 1000]) ∧
    (fetchWithRetry 10 (failsFirst 1) (some ⟨none, none⟩) 0).map
        (fun r => (r.result, invocations r.trace, sleeps r.trace)) =
      some (.ok 2, 2, [1000]) :=
  ⟨(defaults_applied alwaysFails 0).2.2.2.2.2.2.2 (by intro i _ _; rfl), by decide, by decide⟩

/-- C8. In the trace of every finished run the invocations and the waits
alternate, beginning and ending with an invocation, and every wait is requested
with `delayMs`; hence on every timing of the trace (a wait of `ms` takes at
least `ms`, no event a negative time) each invocation starts at least
`delayMs` after the one before. -/
theorem delay_fidelity {σ α : Type} (apiFn : Operation σ α) (s : σ) (fuel : Nat)
    (maxRetries delayMs : Int) (r : Run σ α)
    (hrun : fetchWithRetry fuel apiFn (some ⟨some maxRetries, some delayMs⟩) s = some r) :
    skeleton r.trace = alternation delayMs (waits r.trace) ∧
    invocations r.trace = waits r.trace + 1 ∧
    sleeps r.trace = List.replicate (waits r.trace) delayMs ∧
    ∀ ts, Timed r.trace ts →
      (callStarts r.trace ts 0).length = invocations r.trace ∧
      List.Chain' (fun a b => a + delayMs ≤ b) (callStarts r.trace ts 0) := by
  rw [fetchWithRetry_eq] at hrun
  obtain ⟨n, t, htr, hsk, -, -, -, -⟩ := whileLoop_run apiFn maxRetries delayMs _ _ _ _ _ hrun
  have ht : r.trace = t := by simpa using htr
  have hsl : sleeps r.trace = List.replicate n delayMs := by
    rw [ht, ← sleeps_skeleton, hsk, sleeps_alternation]
  have hw : waits r.trace = n := by simp [waits, hsl]
  have hinv : invocations r.trace = n + 1 := by
    rw [ht, ← invocations_skeleton, hsk, invocations_alternation]
  refine ⟨by rw [hw, ht, hsk], by rw [hw, hinv], by rw [hw, hsl], ?_⟩
  intro ts hT
  obtain ⟨hch, -, hlen⟩ := (callStarts_spaced delayMs r.trace ts 0 hT).1 n (by rw [ht, hsk])
  exact ⟨by rw [hlen, hinv], hch⟩

/-- The statement of C8 at the run of `failsFirst 2` with `maxRetries = 5` and
`delayMs = 100`. -/
theorem delay_fidelity_witness :
    skeleton sampleRun.trace = alternation 100 (waits sampleRun.trace) ∧
    invocations sampleRun.trace = waits sampleRun.trace + 1 ∧
    sleeps sampleRun.trace = List.replicate (waits sampleRun.trace) 100 ∧
    ∀ ts, Timed sampleRun.trace ts →
      (callStarts sampleRun.trace ts 0).length = invocations sampleRun.trace ∧
      List.Chain' (fun a b => a + 100 ≤ b) (callStarts sampleRun.trace ts 0) :=
  delay_fidelity (failsFirst 2) 0 10 5 100 sampleRun rfl

/-- On the operation interface (every rejection carries a message): two
operations whose outcomes on the attempts `1, ..., maxRetries + 1` agree in
being a success or a failure and in the values of the successes, and whose
failures on attempt `maxRetries + 1` carry the same message, give runs with the
same result, the same number of invocations and the same waits, whatever the
kinds and messages of the other failures. -/
theorem interface_failures_indistinguishable {σ₁ σ₂ α : Type} (apiFn₁ : Operation σ₁ α)
    (apiFn₂ : Operation σ₂ α) (s₁ : σ₁) (s₂ : σ₂) (maxRetries : Nat) (delayMs : Int)
    (hshape : ∀ i, 1 ≤ i → i ≤ maxRetries + 1 →
      sameShape (outcomeOfAttempt apiFn₁ s₁ i) (outcomeOfAttempt apiFn₂ s₂ i))
    (hmsg : ∀ e₁ e₂, outcomeOfAttempt apiFn₁ s₁ (maxRetries + 1) = .error e₁ →
      outcomeOfAttempt apiFn₂ s₂ (maxRetries + 1) = .error e₂ → e₁.message = e₂.message) :
    ∃ (r₁ : Run σ₁ α) (r₂ : Run σ₂ α),
      (∀ fuel, maxRetries + 1 ≤ fuel →
        fetchWithRetry fuel apiFn₁ (some ⟨some (maxRetries : Int), some delayMs⟩) s₁ = some r₁) ∧
      (∀ fuel, maxRetries + 1 ≤ fuel →
        fetchWithRetry fuel apiFn₂ (some ⟨some (maxRetries : Int), some delayMs⟩) s₂ = some r₂) ∧
      r₁.result = r₂.result ∧ invocations r₁.trace = invocations r₂.trace ∧
      sleeps r₁.trace = sleeps r₂.trace := by
  obtain ⟨r₁, n₁, hrun₁, -, hinv₁, hsl₁, -, hfl₁, hnm₁, hres₁, hlast₁⟩ :=
    fetchWithRetry_total apiFn₁ maxRetries delayMs s₁
  obtain ⟨r₂, n₂, hrun₂, -, hinv₂, hsl₂, -, hfl₂, hnm₂, hres₂, hlast₂⟩ :=
    fetchWithRetry_total apiFn₂ maxRetries delayMs s₂
  have hiff : ∀ i, 1 ≤ i → i ≤ maxRetries + 1 →
      (isFailure (outcomeOfAttempt apiFn₁ s₁ i) = true ↔
        isFailure (outcomeOfAttempt apiFn₂ s₂ i) = true) := by
    intro i h1 h2
    have := hshape i h1 h2
    cases h₁ : outcomeOfAttempt apiFn₁ s₁ i <;> cases h₂ : outcomeOfAttempt apiFn₂ s₂ i <;>
      simp_all [sameShape, isFailure]
  have hn : n₁ = n₂ := by
    rcases Nat.lt_trichotomy n₁ n₂ with h | h | h
    · have := hlast₁ ((hiff (n₁ + 1) (by omega) (by omega)).2 (hfl₂ n₁ h))
      omega
    · exact h
    · have := hlast₂ ((hiff (n₂ + 1) (by omega) (by omega)).1 (hfl₁ n₂ h))
      omega
  subst hn
  refine ⟨r₁, r₂, hrun₁, hrun₂, ?_, by rw [hinv₁, hinv₂], by rw [hsl₁, hsl₂]⟩
  rw [hres₁, hres₂]
  have hsh := hshape (n₁ + 1) (by omega) (by omega)
  cases h₁ : outcomeOfAttempt apiFn₁ s₁ (n₁ + 1) with
  | ok v =>
    cases h₂ : outcomeOfAttempt apiFn₂ s₂ (n₁ + 1) with
    | ok w => rw [h₁, h₂] at hsh; simp only [sameShape] at hsh; rw [hsh]
    | error e₂ => rw [h₁, h₂] at hsh; simp [sameShape] at hsh
  | error e₁ =>
    cases h₂ : outcomeOfAttempt apiFn₂ s₂ (n₁ + 1) with
    | ok w => rw [h₁, h₂] at hsh; simp [sameShape] at hsh
    | error e₂ =>
      have hn : n₁ = maxRetries := hlast₁ (by rw [h₁]; rfl)
      subst hn
      simp only [settle, exhaustedError, hmsg e₁ e₂ h₁ h₂]

/-- Two always-failing operations of the interface with `maxRetries = 2` whose
first two failures differ in kind and message. -/
theorem interface_failures_indistinguishable_sample :
    ∃ (r₁ : Run Nat Nat) (r₂ : Run Nat Nat),
      (∀ fuel, 2 + 1 ≤ fuel →
        fetchWithRetry fuel alwaysFails (some ⟨some ((2 : Nat) : Int), some 50⟩) 0 = some r₁) ∧
      (∀ fuel, 2 + 1 ≤ fuel →
        fetchWithRetry fuel timesOutThenFails (some ⟨some ((2 : Nat) : Int), some 50⟩) 0
          = some r₂) ∧
      r₁.result = r₂.result ∧ invocations r₁.trace = invocations r₂.trace ∧
      sleeps r₁.trace = sleeps r₂.trace :=
  interface_failures_indistinguishable alwaysFails timesOutThenFails 0 0 2 50
    (by intro i h1 h2; interval_cases i <;> simp [sameShape, outcomeOfAttempt, stateAfter,
      alwaysFails, timesOutThenFails])
    (by intro e₁ e₂ h₁ h₂; cases h₁; cases h₂; decide)

/-- C10. The delay does not enter the retry decision: for one operation and
one budget, the runs with any two delays have the same result, leave the
operation in the same state and make the same invocations and the same number
of waits; each wait is requested with the delay of its run (so with
`delayMs = 0` every retry still happens, after a wait of `0`). -/
theorem delay_does_not_decide {σ α : Type} (apiFn : Operation σ α) (s : σ)
    (maxRetries : Nat) (delayMs delayMs' : Int) :
    ∃ (r r' : Run σ α),
      (∀ fuel, maxRetries + 1 ≤ fuel →
        fetchWithRetry fuel apiFn (some ⟨some (maxRetries : Int), some delayMs⟩) s = some r) ∧
      (∀ fuel, maxRetries + 1 ≤ fuel →
        fetchWithRetry fuel apiFn (some ⟨some (maxRetries : Int), some delayMs'⟩) s = some r') ∧
      r.result = r'.result ∧ r.state = r'.state ∧
      invocations r.trace = invocations r'.trace ∧ waits r.trace = waits r'.trace ∧
      invocations r.trace = waits r.trace + 1 ∧
      sleeps r.trace = List.replicate (waits r.trace) delayMs ∧
      sleeps r'.trace = List.replicate (waits r.trace) delayMs' := by
  obtain ⟨r₁, n₁, hrun₁, -, hinv₁, hsl₁, hst₁, hfl₁, hnm₁, hres₁, hlast₁⟩ :=
    fetchWithRetry_total apiFn maxRetries delayMs s
  obtain ⟨r₂, n₂, hrun₂, -, hinv₂, hsl₂, hst₂, hfl₂, hnm₂, hres₂, hlast₂⟩ :=
    fetchWithRetry_total apiFn maxRetries delayMs' s
  have hn : n₁ = n₂ := by
    rcases Nat.lt_trichotomy n₁ n₂ with h | h | h
    · have := hlast₁ (hfl₂ n₁ h); omega
    · exact h
    · have := hlast₂ (hfl₁ n₂ h); omega
  subst hn
  have hw₁ : waits r₁.trace = n₁ := by simp [waits, hsl₁]
  have hw₂ : waits r₂.trace = n₁ := by simp [waits, hsl₂]
  exact ⟨r₁, r₂, hrun₁, hrun₂, by rw [hres₁, hres₂], by rw [hst₁, hst₂], by rw [hinv₁, hinv₂],
    by rw [hw₁, hw₂], by rw [hw₁, hinv₁], by rw [hw₁, hsl₁], by rw [hw₁, hsl₂]⟩

/-! ### The trace of a run, event by event -/

theorem invocations_progressLine {α : Type} (a : Nat) (o : Outcome α) (tr : List Event) :
    invocations (progressLine a o :: tr) = invocations tr := by
  cases o <;> simp [progressLine, invocations]

theorem attemptReports_progressLine {α : Type} (a : Nat) (o : Outcome α) (tr : List Event) :
    attemptReports (progressLine a o :: tr) = attemptReports tr := by
  cases o <;> simp [progressLine, attemptReports]

/-- Every finished run of the loop appends to the trace the events of `n`
retried attempts and of a last attempt, for the number `n` of its retries. -/
theorem whileLoop_trace {σ α : Type} (apiFn : Operation σ α) (M d : Int) :
    ∀ (fuel a : Nat) (s : σ) (tr : List Event) (r : Run σ α),
      whileLoop apiFn M d fuel a s tr = some r →
      ∃ n : Nat, r.trace = tr ++ expectedTrace apiFn d a s n ∧
        (∀ i, i < n → isFailure (outcomeOfAttempt apiFn s (i + 1)) = true) := by
  intro fuel
  induction fuel with
  | zero => intro a s tr r h; simp [whileLoop] at h
  | succ fuel ih =>
    intro a s tr r h
    rcases hs : apiFn s with ⟨err | v, s'⟩
    · by_cases hM : ((a + 1 : Nat) : Int) > M
      · rw [whileLoop_exhausted apiFn M d fuel a s s' tr err hs hM] at h
        cases h
        exact ⟨0, by simp [expectedTrace, hs, progressLine], fun i hi => by omega⟩
      · rw [whileLoop_retry apiFn M d fuel a s s' tr err hs hM] at h
        obtain ⟨n, htr, hfail⟩ := ih (a + 1) s' _ r h
        have hs2 : (apiFn s).2 = s' := by rw [hs]
        refine ⟨n + 1, by simp [htr, expectedTrace, hs, progressLine], ?_⟩
        intro i hi
        cases i with
        | zero => simp [outcomeOfAttempt_one, hs, isFailure]
        | succ j =>
          rw [outcomeOfAttempt_succ, hs2]
          exact hfail j (by omega)
    · rw [whileLoop_ok apiFn M d fuel a s s' tr v hs] at h
      cases h
      exact ⟨0, by simp [expectedTrace, hs, progressLine], fun i hi => by omega⟩

theorem invocations_expectedTrace {σ α : Type} (apiFn : Operation σ α) (d : Int) :
    ∀ (n a : Nat) (s : σ), invocations (expectedTrace apiFn d a s n) = n + 1 := by
  intro n
  induction n with
  | zero =>
    intro a s
    have := invocations_progressLine (a + 1) (apiFn s).1 []
    simp [expectedTrace, invocations] at this ⊢
    exact this
  | succ n ih =>
    intro a s
    have h1 := invocations_progressLine (a + 1) (apiFn s).1
      (Event.log (waitingLine d) :: Event.sleep d :: expectedTrace apiFn d (a + 1) (apiFn s).2 n)
    have h2 := ih (a + 1) (apiFn s).2
    simp [expectedTrace, invocations] at h1 h2 ⊢
    rw [h1, h2]

/-- The invocation that is preceded by `i` invocations is directly followed by
the report that carries the number `attempt + i + 1`. -/
theorem expectedTrace_split {σ α : Type} (apiFn : Operation σ α) (d : Int) :
    ∀ (i n a : Nat) (s : σ), i ≤ n →
      ∃ pre post, expectedTrace apiFn d a s n =
        pre ++ Event.call :: progressLine (a + i + 1) (outcomeOfAttempt apiFn s (i + 1)) :: post ∧
        invocations pre = i := by
  intro i
  induction i with
  | zero =>
    intro n a s _
    cases n with
    | zero => exact ⟨[], [], by simp [expectedTrace, outcomeOfAttempt_one], rfl⟩
    | succ n => exact ⟨[], _, by simp [expectedTrace, outcomeOfAttempt_one]; rfl, rfl⟩
  | succ i ih =>
    intro n a s hn
    cases n with
    | zero => omega
    | succ n =>
      obtain ⟨pre, post, heq, hpre⟩ := ih n (a + 1) (apiFn s).2 (by omega)
      refine ⟨Event.call :: progressLine (a + 1) (apiFn s).1 ::
        Event.log (waitingLine d) :: Event.sleep d :: pre, post, ?_, ?_⟩
      · rw [outcomeOfAttempt_succ, show a + (i + 1) + 1 = a + 1 + i + 1 by omega]
        simp [expectedTrace, heq]
      · have := invocations_progressLine (a + 1) (apiFn s).1
          (Event.log (waitingLine d) :: Event.sleep d :: pre)
        simp [invocations] at this hpre ⊢
        rw [this, hpre]

theorem getLast_expectedTrace {σ α : Type} (apiFn : Operation σ α) (d : Int) :
    ∀ (n a : Nat) (s : σ), (expectedTrace apiFn d a s n).getLast? =
      some (progressLine (a + n + 1) (outcomeOfAttempt apiFn s (n + 1))) := by
  intro n
  induction n with
  | zero => intro a s; simp [expectedTrace, outcomeOfAttempt_one]
  | succ n ih =>
    intro a s
    have := ih (a + 1) (apiFn s).2
    rw [outcomeOfAttempt_succ, show a + (n + 1) + 1 = a + 1 + n + 1 by omega, ← this]
    cases hE : expectedTrace apiFn d (a + 1) (apiFn s).2 n with
    | nil => rw [hE] at this; simp at this
    | cons e es => simp [expectedTrace, hE]

theorem attemptReports_expectedTrace {σ α : Type} (apiFn : Operation σ α) (d : Int) :
    ∀ (n a : Nat) (s : σ), attemptReports (expectedTrace apiFn d a s n) =
      (List.range (n + 1)).map
        (fun i => progressLine (a + i + 1) (outcomeOfAttempt apiFn s (i + 1))) := by
  intro n
  induction n with
  | zero =>
    intro a s
    simp [expectedTrace, attemptReports, attemptReports_progressLine, outcomeOfAttempt_one,
      List.range_succ_eq_map]
  | succ n ih =>
    intro a s
    rw [List.range_succ_eq_map, List.map_cons, List.map_map]
    have h1 := attemptReports_progressLine (a + 1) (apiFn s).1
      (Event.log (waitingLine d) :: Event.sleep d :: expectedTrace apiFn d (a + 1) (apiFn s).2 n)
    simp only [expectedTrace, attemptReports, List.head?_cons, Option.toList, List.singleton_append,
      h1, ih (a + 1) (apiFn s).2]
    refine congrArg₂ _ (by simp [outcomeOfAttempt_one]) ?_
    apply List.map_congr_left
    intro i _
    simp only [Function.comp, Nat.succ_eq_add_one, outcomeOfAttempt_succ]
    rw [show a + 1 + i + 1 = a + (i + 1) + 1 by omega]

/-! ### Raising the retry budget -/

/-- A run that ends in a success is, step for step, also the run with any
larger budget. -/
theorem whileLoop_budget_le {σ α : Type} (apiFn : Operation σ α) (M M' d : Int) (hle : M ≤ M') :
    ∀ (fuel a : Nat) (s : σ) (tr : List Event) (r : Run σ α) (v : α),
      whileLoop apiFn M d fuel a s tr = some r → r.result = .ok v →
      whileLoop apiFn M' d fuel a s tr = some r := by
  intro fuel
  induction fuel with
  | zero => intro a s tr r v h; simp [whileLoop] at h
  | succ fuel ih =>
    intro a s tr r v h hok
    rcases hs : apiFn s with ⟨err | w, s'⟩
    · by_cases hM : ((a + 1 : Nat) : Int) > M
      · rw [whileLoop_exhausted apiFn M d fuel a s s' tr err hs hM] at h
        cases h
        cases hok
      · have hM' : ¬ ((a + 1 : Nat) : Int) > M' := by omega
        rw [whileLoop_retry apiFn M d fuel a s s' tr err hs hM] at h
        rw [whileLoop_retry apiFn M' d fuel a s s' tr err hs hM']
        exact ih _ _ _ _ v h hok
    · rw [whileLoop_ok apiFn M d fuel a s s' tr w hs] at h
      rw [whileLoop_ok apiFn M' d fuel a s s' tr w hs]
      exact h

/-- A run with a larger budget makes at least as many invocations. -/
theorem invocations_budget_le {σ α : Type} (apiFn : Operation σ α) (M M' d : Int) (hle : M ≤ M')
    (fuel fuel' : Nat) (s : σ) (r r' : Run σ α)
    (h : whileLoop apiFn M d fuel 0 s [] = some r)
    (h' : whileLoop apiFn M' d fuel' 0 s [] = some r') :
    invocations r.trace ≤ invocations r'.trace := by
  obtain ⟨n, t, htr, hsk, -, hfail, -, -⟩ := whileLoop_run apiFn M d _ _ _ _ _ h
  obtain ⟨n', t', htr', hsk', -, -, -, hlast'⟩ := whileLoop_run apiFn M' d _ _ _ _ _ h'
  have hi : invocations r.trace = n + 1 := by
    rw [htr, List.nil_append, ← invocations_skeleton, hsk, invocations_alternation]
  have hi' : invocations r'.trace = n' + 1 := by
    rw [htr', List.nil_append, ← invocations_skeleton, hsk', invocations_alternation]
  have hnn : n ≤ n' := by
    by_contra hcon
    have h1 := hfail n' (by omega)
    have h2 := hlast' h1.1
    have h3 := h1.2
    push_cast at h2 h3
    omega
  omega

/-! ### The claims, continued -/

/-- C11. Attempts are numbered from 1. In the trace of every finished run,
which makes `n + 1` invocations, the invocation preceded by `i - 1`
invocations is directly followed by the report carrying the number `i`, so
the counter equals the number of invocations made so far; the reports, in
order, are those of the attempts `1, ..., n + 1`, each once; the attempts
`1, ..., n` failed and are reported as `Attempt i failed: <message>`; and the
trace ends with the report of attempt `n + 1`, which is `Attempt n+1: success`
when that attempt succeeded. -/
theorem attempt_numbering {σ α : Type} (apiFn : Operation σ α) (s : σ) (fuel : Nat)
    (maxRetries delayMs : Int) (r : Run σ α)
    (hrun : fetchWithRetry fuel apiFn (some ⟨some maxRetries, some delayMs⟩) s = some r) :
    ∃ n : Nat,
      invocations r.trace = n + 1 ∧
      r.trace = expectedTrace apiFn delayMs 0 s n ∧
      (∀ i, 1 ≤ i → i ≤ n + 1 → ∃ pre post,
        r.trace = pre ++ Event.call :: progressLine i (outcomeOfAttempt apiFn s i) :: post ∧
        invocations pre + 1 = i) ∧
      attemptReports r.trace =
        (List.range (n + 1)).map (fun i => progressLine (i + 1) (outcomeOfAttempt apiFn s (i + 1))) ∧
      (∀ i, 1 ≤ i → i ≤ n → ∃ err, outcomeOfAttempt apiFn s i = .error err ∧
        progressLine i (outcomeOfAttempt apiFn s i) =
          Event.warn ("Attempt " ++ toString i ++ " failed: " ++ err.message)) ∧
      r.trace.getLast? = some (progressLine (n + 1) (outcomeOfAttempt apiFn s (n + 1))) ∧
      (∀ v, outcomeOfAttempt apiFn s (n + 1) = .ok v →
        r.trace.getLast? = some (Event.log ("Attempt " ++ toString (n + 1) ++ ": success"))) := by
  rw [fetchWithRetry_eq] at hrun
  obtain ⟨n, htr, hfail⟩ := whileLoop_trace apiFn maxRetries delayMs _ _ _ _ _ hrun
  rw [List.nil_append] at htr
  have hlast := getLast_expectedTrace apiFn delayMs n 0 s
  rw [Nat.zero_add] at hlast
  refine ⟨n, ?_, htr, ?_, ?_, ?_, ?_, ?_⟩
  · rw [htr, invocations_expectedTrace]
  · intro i h1 h2
    obtain ⟨pre, post, heq, hpre⟩ := expectedTrace_split apiFn delayMs (i - 1) n 0 s (by omega)
    rw [show 0 + (i - 1) + 1 = i by omega, show i - 1 + 1 = i by omega] at heq
    exact ⟨pre, post, by rw [htr, heq], by omega⟩
  · rw [htr, attemptReports_expectedTrace]
    simp
  · intro i h1 h2
    have hf := hfail (i - 1) (by omega)
    rw [show i - 1 + 1 = i by omega] at hf
    cases hout : outcomeOfAttempt apiFn s i with
    | ok v => rw [hout] at hf; simp [isFailure] at hf
    | error err => exact ⟨err, rfl, rfl⟩
  · rw [htr, hlast]
  · intro v hv
    rw [htr, hlast, hv]
    rfl

/-- The statement of C11 at the run of `failsFirst 2` with `maxRetries = 5`
and `delayMs = 100`, whose reports are `Attempt 1 failed: down 1`,
`Attempt 2 failed: down 2`, `Attempt 3: success`. -/
theorem attempt_numbering_witness :
    (∃ n : Nat,
      invocations sampleRun.trace = n + 1 ∧
      sampleRun.trace = expectedTrace (failsFirst 2) 100 0 0 n ∧
      (∀ i, 1 ≤ i → i ≤ n + 1 → ∃ pre post,
        sampleRun.trace =
          pre ++ Event.call :: progressLine i (outcomeOfAttempt (failsFirst 2) 0 i) :: post ∧
        invocations pre + 1 = i) ∧
      attemptReports sampleRun.trace =
        (List.range (n + 1)).map
          (fun i => progressLine (i + 1) (outcomeOfAttempt (failsFirst 2) 0 (i + 1))) ∧
      (∀ i, 1 ≤ i → i ≤ n → ∃ err, outcomeOfAttempt (failsFirst 2) 0 i = .error err ∧
        progressLine i (outcomeOfAttempt (failsFirst 2) 0 i) =
          Event.warn ("Attempt " ++ toString i ++ " failed: " ++ err.message)) ∧
      sampleRun.trace.getLast? =
        some (progressLine (n + 1) (outcomeOfAttempt (failsFirst 2) 0 (n + 1))) ∧
      (∀ v, outcomeOfAttempt (failsFirst 2) 0 (n + 1) = .ok v →
        sampleRun.trace.getLast? =
          some (Event.log ("Attempt " ++ toString (n + 1) ++ ": success")))) ∧
    attemptReports sampleRun.trace =
      [Event.warn "Attempt 1 failed: down 1", Event.warn "Attempt 2 failed: down 2",
       Event.log "Attempt 3: success"] :=
  ⟨attempt_numbering (failsFirst 2) 0 10 5 100 sampleRun rfl, by decide⟩

/-- C12. Monotonicity in the retry budget: a run with budget `m` that returns
a value `v` is also the run with every budget `m' ≥ m` (same value, same
invocations, same waits); and whatever the result with budget `m`, a run with
budget `m' ≥ m` makes at least as many invocations. -/
theorem budget_monotone {σ α : Type} (apiFn : Operation σ α) (s : σ) (fuel : Nat)
    (m m' delayMs : Int) (r : Run σ α) (hle : m ≤ m')
    (hrun : fetchWithRetry fuel apiFn (some ⟨some m, some delayMs⟩) s = some r) :
    (∀ v, r.result = .ok v →
      ∃ r' : Run σ α,
        fetchWithRetry fuel apiFn (some ⟨some m', some delayMs⟩) s = some r' ∧
        r'.result = .ok v ∧ invocations r'.trace = invocations r.trace ∧
        waits r'.trace = waits r.trace ∧ r'.trace = r.trace ∧ r'.state = r.state) ∧
    (∀ fuel' (r' : Run σ α),
      fetchWithRetry fuel' apiFn (some ⟨some m', some delayMs⟩) s = some r' →
      invocations r.trace ≤ invocations r'.trace) := by
  rw [fetchWithRetry_eq] at hrun
  refine ⟨?_, ?_⟩
  · intro v hv
    exact ⟨r, whileLoop_budget_le apiFn m m' delayMs hle _ _ _ _ _ v hrun hv, hv, rfl, rfl, rfl, rfl⟩
  · intro fuel' r' hrun'
    rw [fetchWithRetry_eq] at hrun'
    exact invocations_budget_le apiFn m m' delayMs hle _ _ _ _ _ hrun hrun'

/-- The statement of C12 at the run of `failsFirst 2` with budget 5, raised
to 7. -/
theorem budget_monotone_witness :
    (∀ v, sampleRun.result = .ok v →
      ∃ r' : Run Nat Nat,
        fetchWithRetry 10 (failsFirst 2) (some ⟨some 7, some 100⟩) 0 = some r' ∧
        r'.result = .ok v ∧ invocations r'.trace = invocations sampleRun.trace ∧
        waits r'.trace = waits sampleRun.trace ∧ r'.trace = sampleRun.trace ∧
        r'.state = sampleRun.state) ∧
    (∀ fuel' (r' : Run Nat Nat),
      fetchWithRetry fuel' (failsFirst 2) (some ⟨some 7, some 100⟩) 0 = some r' →
      invocations sampleRun.trace ≤ invocations r'.trace) :=
  budget_monotone (failsFirst 2) 0 10 5 7 100 sampleRun (by decide) rfl

/-- C14. The mock operation as a function of its random draw `random` in
`[0, 1)`: it resolves, with `ok = true` and `data.message = "mock success"`,
exactly when `random < successRate`, and rejects with the message
`mock failure` otherwise; the omitted `successRate` is the double `0.3`; it
always resolves when `successRate >= 1` and always rejects when
`successRate <= 0`. -/
theorem mockApiCall_settles (successRate : JsNumber) (random : ℚ) (now : Int)
    (h0 : 0 ≤ random) (h1 : random < 1) :
    (mockApiCall (some successRate) random now =
        .ok { ok := true, data := { message := "mock success", ts := now } } ↔
      JsNumber.lt (.finite random) successRate = true) ∧
    (mockApiCall (some successRate) random now =
        .error { name := "Error", message := "mock failure" } ↔
      JsNumber.lt (.finite random) successRate = false) ∧
    mockApiCall none random now = mockApiCall (some successRateDefault) random now ∧
    (∃ q : ℚ, successRateDefault = .finite q ∧ q ≤ 3 / 10 ∧ 3 / 10 - q < 1 / 2 ^ 55) ∧
    (JsNumber.le (.finite 1) successRate = true →
      mockApiCall (some successRate) random now =
        .ok { ok := true, data := { message := "mock success", ts := now } }) ∧
    (JsNumber.le successRate (.finite 0) = true →
      mockApiCall (some successRate) random now =
        .error { name := "Error", message := "mock failure" }) := by
  refine ⟨?_, ?_, rfl, ⟨_, rfl, by norm_num, by norm_num⟩, ?_, ?_⟩
  · cases h : JsNumber.lt (.finite random) successRate <;> simp [mockApiCall, h]
  · cases h : JsNumber.lt (.finite random) successRate <;> simp [mockApiCall, h]
  · intro hge
    have hlt : JsNumber.lt (.finite random) successRate = true := by
      cases successRate with
      | nan => simp [JsNumber.le] at hge
      | negInf => simp [JsNumber.le] at hge
      | posInf => rfl
      | finite q =>
        have hq : (1 : ℚ) ≤ q := by simpa [JsNumber.le] using hge
        simpa [JsNumber.lt] using lt_of_lt_of_le h1 hq
    simp [mockApiCall, hlt]
  · intro hle
    have hlt : JsNumber.lt (.finite random) successRate = false := by
      cases successRate with
      | nan => rfl
      | negInf => rfl
      | posInf => simp [JsNumber.le] at hle
      | finite q =>
        have hq : q ≤ 0 := by simpa [JsNumber.le] using hle
        simpa [JsNumber.lt] using le_trans hq h0
    simp [mockApiCall, hlt]

/-- The statement of C14 at `successRate = 1/2`, the draw `1/4` and the clock
at `1700000000000`. -/
theorem mockApiCall_settles_witness :
    (mockApiCall (some (.finite (1 / 2))) (1 / 4) 1700000000000 =
        .ok { ok := true, data := { message := "mock success", ts := 1700000000000 } } ↔
      JsNumber.lt (.finite (1 / 4)) (.finite (1 / 2)) = true) ∧
    (mockApiCall (some (.finite (1 / 2))) (1 / 4) 1700000000000 =
        .error { name := "Error", message := "mock failure" } ↔
      JsNumber.lt (.finite (1 / 4)) (.finite (1 / 2)) = false) ∧
    mockApiCall none (1 / 4) 1700000000000 =
      mockApiCall (some successRateDefault) (1 / 4) 1700000000000 ∧
    (∃ q : ℚ, successRateDefault = .finite q ∧ q ≤ 3 / 10 ∧ 3 / 10 - q < 1 / 2 ^ 55) ∧
    (JsNumber.le (.finite 1) (.finite (1 / 2)) = true →
      mockApiCall (some (.finite (1 / 2))) (1 / 4) 1700000000000 =
        .ok { ok := true, data := { message := "mock success", ts := 1700000000000 } }) ∧
    (JsNumber.le (.finite (1 / 2)) (.finite 0) = true →
      mockApiCall (some (.finite (1 / 2))) (1 / 4) 1700000000000 =
        .error { name := "Error", message := "mock failure" }) :=
  mockApiCall_settles (.finite (1 / 2)) (1 / 4) 1700000000000 (by norm_num) (by norm_num)

/-! ### Rejections and numbers of any kind -/

theorem lt_finite_cast (M : Int) (a : Nat) :
    JsNumber.lt (.finite (M : ℚ)) (.finite ((a : ℕ) : ℚ)) = decide ((a : Int) > M) := by
  simp only [JsNumber.lt, gt_iff_lt]
  congr 1
  apply propext
  constructor
  · intro h; exact_mod_cast h
  · intro h; exact_mod_cast h

/-- On an operation of the interface, with an integer budget and a conversion
to text that prints the numbers of the run in decimal digits, the loop for
rejections of any kind is the loop of the interface. -/
theorem anyRejection_whileLoop_lift {σ α : Type} (render : JsNumber → String)
    (apiFn : Operation σ α) (M d : Int)
    (hM : render (.finite (M : ℚ)) = toString M) (hd : render (.finite (d : ℚ)) = toString d) :
    ∀ (fuel a : Nat) (s : σ) (tr : List Event),
      (∀ k : Nat, k ≤ a + fuel → render (.finite ((k : ℕ) : ℚ)) = toString k) →
      AnyRejection.whileLoop render (AnyRejection.lift apiFn) (.finite (M : ℚ)) d fuel a s tr =
        whileLoop apiFn M d fuel a s tr := by
  intro fuel
  induction fuel with
  | zero => intro a s tr _; rfl
  | succ fuel ih =>
    intro a s tr hr
    have hk := hr (a + 1) (by omega)
    rcases hs : apiFn s with ⟨err | v, s'⟩
    · have hl : AnyRejection.lift apiFn s = (.error (.error err), s') := by
        simp [AnyRejection.lift, hs]
      by_cases hgt : ((a + 1 : Nat) : Int) > M
      · rw [whileLoop_exhausted apiFn M d fuel a s s' tr err hs hgt]
        simp only [AnyRejection.whileLoop, hl, readMessage, lt_finite_cast, hk, hM,
          decide_eq_true hgt, if_true]
        rfl
      · rw [whileLoop_retry apiFn M d fuel a s s' tr err hs hgt]
        simp only [AnyRejection.whileLoop, hl, readMessage, lt_finite_cast, hk, hM, hd,
          decide_eq_false hgt]
        rw [ih (a + 1) s' _ (fun k hk' => hr k (by omega))]
        simp [failureLine, waitingLine]
    · have hl : AnyRejection.lift apiFn s = (.ok v, s') := by
        simp [AnyRejection.lift, hs]
      rw [whileLoop_ok apiFn M d fuel a s s' tr v hs]
      simp only [AnyRejection.whileLoop, hl, hk]
      rfl

/-- A budget below 0 is below the counter of the first attempt. -/
theorem lt_one_of_lt_zero (maxRetries : JsNumber)
    (hneg : JsNumber.lt maxRetries (.finite 0) = true) :
    JsNumber.lt maxRetries (.finite (((0 + 1 : Nat) : ℕ) : ℚ)) = true := by
  cases maxRetries with
  | nan => simp [JsNumber.lt] at hneg
  | posInf => simp [JsNumber.lt] at hneg
  | negInf => rfl
  | finite q =>
    have hq : q < 0 := by simpa [JsNumber.lt] using hneg
    have : q < 1 := lt_trans hq one_pos
    simpa [JsNumber.lt] using this

/-! ### The claims on rejections and numbers of any kind -/

/-- C4. The run of
`fetchWithRetry(() => Promise.reject(null), { maxRetries: 3, delayMs: 5 })`:
attempt 1 fails, and although `1 ≤ maxRetries` the run ends there, after one
invocation and without a wait, with the `TypeError` of the read of
`err.message`, which is not the error of exhaustion. -/
theorem null_rejection_is_not_retried (render : JsNumber → String) (fuel : Nat) :
    ∃ r : Run Unit Nat,
      AnyRejection.fetchWithRetry render (fuel + 1) AnyRejection.rejectsNull
        (some ⟨some (.finite 3), some 5⟩) () = some r ∧
      (AnyRejection.rejectsNull ()).1 = .error .null ∧
      r.trace = [Event.call] ∧ invocations r.trace = 1 ∧ waits r.trace = 0 ∧
      r.result =
        .error ⟨"TypeError", "Cannot read properties of null (reading \x27message\x27)"⟩ ∧
      (∀ message : String, r.result ≠ .error ⟨"Error", message⟩) := by
  refine ⟨_, rfl, rfl, rfl, rfl, rfl, rfl, ?_⟩
  intro message h
  exact absurd (congrArg JsError.name (Except.error.inj h))
    (by decide : ¬ ("TypeError" : String) = "Error")

/-- C9. Two operations that fail on each of the attempts 1, 2, 3 and whose
failures on attempt 3 are the same, called with `maxRetries = 2` and
`delayMs = 50`: the one whose rejections all carry a message throws the error of
exhaustion after 3 invocations and 2 waits, the one whose first rejection is
`undefined` throws a `TypeError` after 1 invocation and no wait. -/
theorem undefined_rejection_is_distinguished (render : JsNumber → String) (fuel : Nat) :
    ∃ r₁ r₂ : Run Nat Nat,
      AnyRejection.fetchWithRetry render (fuel + 3) (AnyRejection.lift alwaysFails)
        (some ⟨some (.finite 2), some 50⟩) 0 = some r₁ ∧
      AnyRejection.fetchWithRetry render (fuel + 3) AnyRejection.undefinedThenFails
        (some ⟨some (.finite 2), some 50⟩) 0 = some r₂ ∧
      (∀ c, c < 3 → ∃ e₁ e₂, AnyRejection.lift alwaysFails c = (.error e₁, c + 1) ∧
        AnyRejection.undefinedThenFails c = (.error e₂, c + 1)) ∧
      AnyRejection.lift alwaysFails 2 = AnyRejection.undefinedThenFails 2 ∧
      r₁.result = .error ⟨"Error",
        "All " ++ render (.finite 2) ++ " retries failed. Last error: " ++ "mock failure 3"⟩ ∧
      invocations r₁.trace = 3 ∧ sleeps r₁.trace = [50, 50] ∧
      r₂.result =
        .error ⟨"TypeError", "Cannot read properties of undefined (reading \x27message\x27)"⟩ ∧
      invocations r₂.trace = 1 ∧ sleeps r₂.trace = [] ∧
      r₁.result ≠ r₂.result := by
  have h₁ : ∃ r₁ : Run Nat Nat,
      AnyRejection.fetchWithRetry render (fuel + 3) (AnyRejection.lift alwaysFails)
        (some ⟨some (.finite 2), some 50⟩) 0 = some r₁ ∧
      r₁.result = .error ⟨"Error",
        "All " ++ render (.finite 2) ++ " retries failed. Last error: " ++ "mock failure 3"⟩ ∧
      invocations r₁.trace = 3 ∧ sleeps r₁.trace = [50, 50] := by
    norm_num [AnyRejection.fetchWithRetry, AnyRejection.whileLoop, AnyRejection.lift,
      alwaysFails, readMessage, JsNumber.lt, invocations, sleeps]
    exact ⟨rfl, by simp⟩
  obtain ⟨r₁, hrun₁, hres₁, hinv₁, hsl₁⟩ := h₁
  refine ⟨r₁, _, hrun₁, rfl, ?_, ?_, hres₁, hinv₁, hsl₁, rfl, rfl, rfl, ?_⟩
  · intro c hc
    interval_cases c <;> exact ⟨_, _, rfl, rfl⟩
  · simp [AnyRejection.lift, alwaysFails, AnyRejection.undefinedThenFails]
  · rw [hres₁]
    intro h
    exact absurd (congrArg JsError.name (Except.error.inj h))
      (by decide : ¬ ("Error" : String) = "TypeError")

/-- C13. With a negative `maxRetries`, an integer or not, the call makes
exactly one invocation and awaits no delay, with the same trace and the same
state of the operation as with `maxRetries = 0`: a success is returned; a
failure with a message throws at once the error whose message names the
negative number as the runtime prints it; a rejection with `null` or
`undefined` throws the same `TypeError` as with `maxRetries = 0`. -/
theorem negative_budget_single_attempt {σ α : Type} (render : JsNumber → String)
    (apiFn : AnyRejection.Operation σ α) (s : σ) (maxRetries : JsNumber)
    (delayMs : Option Int) (fuel : Nat) (hneg : JsNumber.lt maxRetries (.finite 0) = true) :
    ∃ (r r₀ : Run σ α),
      AnyRejection.fetchWithRetry render (fuel + 1) apiFn (some ⟨some maxRetries, delayMs⟩) s
        = some r ∧
      AnyRejection.fetchWithRetry render (fuel + 1) apiFn (some ⟨some (.finite 0), delayMs⟩) s
        = some r₀ ∧
      r.trace = r₀.trace ∧ r.state = r₀.state ∧
      invocations r.trace = 1 ∧ waits r.trace = 0 ∧
      (∀ v, (apiFn s).1 = .ok v → r.result = .ok v ∧ r₀.result = .ok v) ∧
      (∀ err, (apiFn s).1 = .error (.error err) →
        r.result = .error ⟨"Error",
          "All " ++ render maxRetries ++ " retries failed. Last error: " ++ err.message⟩ ∧
        r₀.result = .error ⟨"Error",
          "All " ++ render (.finite 0) ++ " retries failed. Last error: " ++ err.message⟩) ∧
      (∀ reason thrown, (apiFn s).1 = .error reason → readMessage reason = .error thrown →
        r.result = .error thrown ∧ r₀.result = .error thrown) := by
  have h1 := lt_one_of_lt_zero maxRetries hneg
  have h0 : JsNumber.lt (.finite 0) (.finite (((0 + 1 : Nat) : ℕ) : ℚ)) = true := by
    simp [JsNumber.lt]
  rcases hs : apiFn s with ⟨reason | v, s'⟩
  · cases hm : readMessage reason with
    | error thrown =>
      refine ⟨⟨.error thrown, s', [Event.call]⟩, ⟨.error thrown, s', [Event.call]⟩,
        ?_, ?_, rfl, rfl, rfl, rfl, ?_, ?_, ?_⟩
      · simp [AnyRejection.fetchWithRetry, AnyRejection.whileLoop, hs, hm]
      · simp [AnyRejection.fetchWithRetry, AnyRejection.whileLoop, hs, hm]
      · intro v hv; cases hv
      · intro err he
        cases he
        simp [readMessage] at hm
      · intro reason' thrown' he hm'
        cases he
        rw [hm] at hm'
        cases hm'
        exact ⟨rfl, rfl⟩
    | ok message =>
      refine ⟨⟨.error ⟨"Error",
          "All " ++ render maxRetries ++ " retries failed. Last error: " ++ message⟩, s',
          [Event.call, Event.warn ("Attempt " ++ render (.finite (((0 + 1 : Nat) : ℕ) : ℚ)) ++
            " failed: " ++ message)]⟩,
        ⟨.error ⟨"Error",
          "All " ++ render (.finite 0) ++ " retries failed. Last error: " ++ message⟩, s',
          [Event.call, Event.warn ("Attempt " ++ render (.finite (((0 + 1 : Nat) : ℕ) : ℚ)) ++
            " failed: " ++ message)]⟩,
        ?_, ?_, rfl, rfl, ?_, rfl, ?_, ?_, ?_⟩
      · simp only [AnyRejection.fetchWithRetry, AnyRejection.whileLoop, Option.getD, hs, hm,
          h1, if_true, List.nil_append]
      · simp only [AnyRejection.fetchWithRetry, AnyRejection.whileLoop, Option.getD, hs, hm,
          h0, if_true, List.nil_append]
      · simp [invocations]
      · intro v hv; cases hv
      · intro err he
        cases he
        simp only [readMessage, Except.ok.injEq] at hm
        subst hm
        exact ⟨rfl, rfl⟩
      · intro reason' thrown' he hm'
        cases he
        rw [hm] at hm'
        cases hm'
  · refine ⟨⟨.ok v, s', [Event.call,
        Event.log ("Attempt " ++ render (.finite (((0 + 1 : Nat) : ℕ) : ℚ)) ++ ": success")]⟩,
      ⟨.ok v, s', [Event.call,
        Event.log ("Attempt " ++ render (.finite (((0 + 1 : Nat) : ℕ) : ℚ)) ++ ": success")]⟩,
      ?_, ?_, rfl, rfl, ?_, rfl, ?_, ?_, ?_⟩
    · simp only [AnyRejection.fetchWithRetry, AnyRejection.whileLoop, Option.getD, hs,
        List.nil_append]
    · simp only [AnyRejection.fetchWithRetry, AnyRejection.whileLoop, Option.getD, hs,
        List.nil_append]
    · simp [invocations]
    · intro w hw; cases hw; exact ⟨rfl, rfl⟩
    · intro err he; cases he
    · intro reason thrown he; cases he

/-- The statement of C13 at `maxRetries = -2` and an operation that always
fails, with integers printed in decimal digits: one invocation, no wait, and a
message naming `-2`; and the same run at `maxRetries = -Infinity`. -/
theorem negative_budget_single_attempt_witness :
    (∃ (r r₀ : Run Nat Nat),
      AnyRejection.fetchWithRetry AnyRejection.decimal (0 + 1) (AnyRejection.lift alwaysFails)
        (some ⟨some (.finite (-2)), some 50⟩) 0 = some r ∧
      AnyRejection.fetchWithRetry AnyRejection.decimal (0 + 1) (AnyRejection.lift alwaysFails)
        (some ⟨some (.finite 0), some 50⟩) 0 = some r₀ ∧
      r.trace = r₀.trace ∧ r.state = r₀.state ∧
      invocations r.trace = 1 ∧ waits r.trace = 0 ∧
      (∀ v, (AnyRejection.lift alwaysFails 0).1 = .ok v → r.result = .ok v ∧ r₀.result = .ok v) ∧
      (∀ err, (AnyRejection.lift alwaysFails 0).1 = .error (.error err) →
        r.result = .error ⟨"Error", "All " ++ AnyRejection.decimal (.finite (-2)) ++
          " retries failed. Last error: " ++ err.message⟩ ∧
        r₀.result = .error ⟨"Error", "All " ++ AnyRejection.decimal (.finite 0) ++
          " retries failed. Last error: " ++ err.message⟩) ∧
      (∀ reason thrown, (AnyRejection.lift alwaysFails 0).1 = .error reason →
        readMessage reason = .error thrown →
        r.result = .error thrown ∧ r₀.result = .error thrown)) ∧
    (AnyRejection.fetchWithRetry AnyRejection.decimal 1 (AnyRejection.lift alwaysFails)
        (some ⟨some (.finite (-2)), some 50⟩) 0).map
        (fun r => (r.result, invocations r.trace, sleeps r.trace)) =
      some (.error ⟨"Error", "All -2 retries failed. Last error: mock failure 1"⟩, 1, []) ∧
    (AnyRejection.fetchWithRetry AnyRejection.decimal 1 (AnyRejection.lift alwaysFails)
        (some ⟨some .negInf, some 50⟩) 0).map
        (fun r => (r.result, invocations r.trace, sleeps r.trace)) =
      some (.error ⟨"Error", "All -Infinity retries failed. Last error: mock failure 1"⟩, 1, []) :=
  ⟨negative_budget_single_attempt AnyRejection.decimal (AnyRejection.lift alwaysFails) 0
      (.finite (-2)) (some 50) 0 (by decide), by decide, by decide⟩

end FetchWithRetry
